import Mathlib

/-!
A verification development for the mapstructure decoding library.

The development shallowly embeds the library's data model and decode engine:

* `mapstructure.DType` / `mapstructure.Value` model the destination types
  (`reflect.Type`) and runtime values (`interface{}` / `reflect.Value`) over
  the universe of shapes the engine dispatches on (bool, int, uint, string,
  map, slice, struct, pointer, empty interface).  Floating point values,
  `json.Number`, array destinations, function values and unexported struct
  fields are outside the modelled universe.  Integer bit widths are kept
  (`dInt bits`), and assignment truncates modulo `2^bits` exactly as
  `reflect.Value.SetInt`/`SetUint` do.
* The error model (`DecodingError`, `DecodingErrors`, `GoError`) follows
  error.go; namespaces in this pure layer are plain lists of segments
  (`Seg`), i.e. the value semantics `Namespace.Duplicate` is intended to
  provide.  A second, store-based model (`GoSlice`, further below) captures
  the actual Go slice semantics of `Duplicate`/append for the aliasing
  analysis.
* The decode engine (`decode` and the `decodeXxx` helpers) is a direct
  translation of mapstructure.go (src/unnamed/part_005).  Go's unbounded
  recursion is represented with a fuel parameter; every theorem either
  fixes a concrete sufficient fuel or quantifies over it.
-/

namespace mapstructure

/-- Canonical shape kinds, the image of `getKind` (part_005:1563-1576):
all int widths collapse to one kind, likewise uint.  `kInvalid` is the kind
of an invalid `reflect.Value` (e.g. `reflect.ValueOf(nil)`). -/
inductive Kind where
  | kBool | kInt | kUint | kString | kMap | kSlice | kStruct | kPtr
  | kInterface | kInvalid
deriving DecidableEq, Repr

mutual
/-- Destination types, mirroring the `reflect.Type`s the engine dispatches
on.  `dInt bits`/`dUint bits` keep the width (`val.Type().Bits()`);
`dInterface` is the empty interface. -/
inductive DType where
  | dBool
  | dInt (bits : Nat)
  | dUint (bits : Nat)
  | dString
  | dInterface
  | dStruct (fields : DFields)
  | dMap (kty vty : DType)
  | dSlice (ety : DType)
  | dPtr (ety : DType)

/-- Struct field list: field name, the raw struct tag under the configured
tag name (`field.Tag.Get(d.config.TagName)`), whether the field is
embedded/anonymous, and its type. -/
inductive DFields where
  | nil
  | cons (name tag : String) (anon : Bool) (ty : DType) (tl : DFields)
end

mutual
/-- Structural equality of types, modelling Go's `reflect.Type` identity
over the modelled universe. -/
def DType.beq : DType → DType → Bool
  | .dBool, .dBool => true
  | .dInt b, .dInt b2 => b == b2
  | .dUint b, .dUint b2 => b == b2
  | .dString, .dString => true
  | .dInterface, .dInterface => true
  | .dStruct f, .dStruct g => DFields.beq f g
  | .dMap k v, .dMap k2 v2 => DType.beq k k2 && DType.beq v v2
  | .dSlice e, .dSlice e2 => DType.beq e e2
  | .dPtr e, .dPtr e2 => DType.beq e e2
  | _, _ => false

def DFields.beq : DFields → DFields → Bool
  | .nil, .nil => true
  | .cons n t a ty tl, .cons n2 t2 a2 ty2 tl2 =>
      n == n2 && t == t2 && a == a2 && DType.beq ty ty2 && DFields.beq tl tl2
  | _, _ => false
end

/-- The kind of a destination type (a `reflect.Value` of static type `t`
has kind `t.Kind()`, collapsed by `getKind`). -/
def getKindTy : DType → Kind
  | .dBool => .kBool
  | .dInt _ => .kInt
  | .dUint _ => .kUint
  | .dString => .kString
  | .dInterface => .kInterface
  | .dStruct _ => .kStruct
  | .dMap _ _ => .kMap
  | .dSlice _ => .kSlice
  | .dPtr _ => .kPtr

mutual
/-- Runtime values.  `vNil` is the untyped nil interface; `vPtrNil`,
`vMapNil` and `vSliceNil` are typed nil pointers/maps/slices (Go
distinguishes them from the untyped nil and from empty maps/slices).
Struct values carry their field list type so that `reflect.Value.Type()`
is recoverable. -/
inductive Value where
  | vNil
  | vBool (b : Bool)
  | vInt (n : Int)
  | vUint (n : Nat)
  | vString (s : String)
  | vPtrNil (ety : DType)
  | vPtr (ety : DType) (v : Value)
  | vMapNil (kty vty : DType)
  | vMap (kty vty : DType) (entries : VEntries)
  | vSliceNil (ety : DType)
  | vSlice (ety : DType) (elems : VList)
  | vStruct (fty : DFields) (vals : VList)

/-- A first-order list of values (slice elements, struct field values). -/
inductive VList where
  | nil
  | cons (hd : Value) (tl : VList)

/-- A first-order association list of map entries, in Go map iteration
order (the model fixes one order; Go's is unspecified). -/
inductive VEntries where
  | nil
  | cons (k v : Value) (tl : VEntries)
end

mutual
/-- Value equality, modelling Go interface equality (`==` on comparable
values) over the modelled universe. -/
def Value.beq : Value → Value → Bool
  | .vNil, .vNil => true
  | .vBool b, .vBool b2 => b == b2
  | .vInt n, .vInt n2 => n == n2
  | .vUint n, .vUint n2 => n == n2
  | .vString s, .vString s2 => s == s2
  | .vPtrNil t, .vPtrNil t2 => DType.beq t t2
  | .vPtr t v, .vPtr t2 v2 => DType.beq t t2 && Value.beq v v2
  | .vMapNil k v, .vMapNil k2 v2 => DType.beq k k2 && DType.beq v v2
  | .vMap k v e, .vMap k2 v2 e2 => DType.beq k k2 && DType.beq v v2 && VEntries.beq e e2
  | .vSliceNil t, .vSliceNil t2 => DType.beq t t2
  | .vSlice t l, .vSlice t2 l2 => DType.beq t t2 && VList.beq l l2
  | .vStruct f l, .vStruct f2 l2 => DFields.beq f f2 && VList.beq l l2
  | _, _ => false

def VList.beq : VList → VList → Bool
  | .nil, .nil => true
  | .cons h t, .cons h2 t2 => Value.beq h h2 && VList.beq t t2
  | _, _ => false

def VEntries.beq : VEntries → VEntries → Bool
  | .nil, .nil => true
  | .cons k v t, .cons k2 v2 t2 => Value.beq k k2 && Value.beq v v2 && VEntries.beq t t2
  | _, _ => false
end

def VList.length : VList → Nat
  | .nil => 0
  | .cons _ t => 1 + t.length

def VList.get? : VList → Nat → Option Value
  | .nil, _ => none
  | .cons h _, 0 => some h
  | .cons _ t, n + 1 => t.get? n

def VList.set : VList → Nat → Value → VList
  | .nil, _, _ => .nil
  | .cons _ t, 0, v => .cons v t
  | .cons h t, n + 1, v => .cons h (t.set n v)

def VList.ofList : List Value → VList
  | [] => .nil
  | v :: vs => .cons v (VList.ofList vs)

def VList.toList : VList → List Value
  | .nil => []
  | .cons h t => h :: t.toList

def VEntries.ofList : List (Value × Value) → VEntries
  | [] => .nil
  | (k, v) :: es => .cons k v (VEntries.ofList es)

def VEntries.toList : VEntries → List (Value × Value)
  | .nil => []
  | .cons k v t => (k, v) :: t.toList

def VEntries.length : VEntries → Nat
  | .nil => 0
  | .cons _ _ t => 1 + t.length

/-- `m[k]` on a Go map: the value for the first (unique) matching key. -/
def VEntries.lookup (es : VEntries) (k : Value) : Option Value :=
  match es with
  | .nil => none
  | .cons k2 v t => if Value.beq k2 k then some v else t.lookup k

/-- `reflect.Value.SetMapIndex`: overwrite the entry for an existing key,
otherwise add a new entry. -/
def VEntries.setIndex (es : VEntries) (k v : Value) : VEntries :=
  match es with
  | .nil => .cons k v .nil
  | .cons k2 v2 t =>
      if Value.beq k2 k then .cons k2 v t else .cons k2 v2 (t.setIndex k v)

def DFields.length : DFields → Nat
  | .nil => 0
  | .cons _ _ _ _ t => 1 + t.length

/-- The dynamic type of a value (`reflect.Value.Type()`); `vNil` has no
type in Go (invalid value), the model maps it to the empty interface and
never relies on that corner. -/
def typeOf : Value → DType
  | .vNil => .dInterface
  | .vBool _ => .dBool
  | .vInt _ => .dInt 64
  | .vUint _ => .dUint 64
  | .vString _ => .dString
  | .vPtrNil t => .dPtr t
  | .vPtr t _ => .dPtr t
  | .vMapNil k v => .dMap k v
  | .vMap k v _ => .dMap k v
  | .vSliceNil t => .dSlice t
  | .vSlice t _ => .dSlice t
  | .vStruct f _ => .dStruct f

/-- `getKind(reflect.ValueOf(data))` (part_005:1563-1576). -/
def getKindV : Value → Kind
  | .vNil => .kInvalid
  | .vBool _ => .kBool
  | .vInt _ => .kInt
  | .vUint _ => .kUint
  | .vString _ => .kString
  | .vPtrNil _ => .kPtr
  | .vPtr _ _ => .kPtr
  | .vMapNil _ _ => .kMap
  | .vMap _ _ _ => .kMap
  | .vSliceNil _ => .kSlice
  | .vSlice _ _ => .kSlice
  | .vStruct _ _ => .kStruct

/-- `reflect.Indirect`: dereference one pointer level; a nil pointer
yields the invalid (zero) `reflect.Value`. -/
def indirect : Value → Value
  | .vPtr _ v => v
  | .vPtrNil _ => .vNil
  | v => v

/-- `v.IsNil()` for the kinds `decodePtr` inspects (chan, func, interface,
map, ptr, slice); other kinds never reach the call. -/
def valueIsNil : Value → Bool
  | .vNil => true
  | .vPtrNil _ => true
  | .vMapNil _ _ => true
  | .vSliceNil _ => true
  | _ => false

mutual
/-- `reflect.Zero(t)`: the zero value of a destination type. -/
def zeroValue : DType → Value
  | .dBool => .vBool false
  | .dInt _ => .vInt 0
  | .dUint _ => .vUint 0
  | .dString => .vString ""
  | .dInterface => .vNil
  | .dStruct fs => .vStruct fs (zeroFieldVals fs)
  | .dMap k v => .vMapNil k v
  | .dSlice e => .vSliceNil e
  | .dPtr e => .vPtrNil e

def zeroFieldVals : DFields → VList
  | .nil => .nil
  | .cons _ _ _ ty tl => .cons (zeroValue ty) (zeroFieldVals tl)
end

/-- Rendering of a type for error messages (`%s` on a `reflect.Type`).
The exact spelling is not load-bearing for any claim. -/
def tyStr : DType → String
  | .dBool => "bool"
  | .dInt b => "int" ++ toString b
  | .dUint b => "uint" ++ toString b
  | .dString => "string"
  | .dInterface => "interface {}"
  | .dStruct _ => "struct"
  | .dMap _ _ => "map"
  | .dSlice _ => "slice"
  | .dPtr _ => "ptr"

/-- Rendering of a value for `%v` in error messages.  Composite values are
rendered shallowly; no claim depends on their spelling. -/
def formatV : Value → String
  | .vNil => "<nil>"
  | .vBool b => if b then "true" else "false"
  | .vInt n => toString n
  | .vUint n => toString n
  | .vString s => s
  | .vPtrNil _ => "<nil>"
  | .vPtr _ _ => "<ptr>"
  | .vMapNil _ _ => "map[]"
  | .vMap _ _ _ => "map[...]"
  | .vSliceNil _ => "[]"
  | .vSlice _ _ => "[...]"
  | .vStruct _ _ => "{...}"

/-! ### Parsers (strconv)

The engine's weak-typing string conversions call Go's `strconv` package,
which is outside this repository; the functions below model its documented
behaviour for the modelled universe (base-inferring integer literal
parsing, `ParseBool`'s fixed token set, bit-size range checks). -/

/-- `strconv.ParseBool`: accepts exactly `1 t T TRUE true True` and
`0 f F FALSE false False`. -/
def goParseBool (s : String) : Option Bool :=
  if s = "1" ∨ s = "t" ∨ s = "T" ∨ s = "TRUE" ∨ s = "true" ∨ s = "True" then
    some true
  else if s = "0" ∨ s = "f" ∨ s = "F" ∨ s = "FALSE" ∨ s = "false" ∨ s = "False" then
    some false
  else
    none

def digitVal (c : Char) : Option Nat :=
  if '0' ≤ c ∧ c ≤ '9' then some (c.toNat - 48)
  else if 'a' ≤ c ∧ c ≤ 'z' then some (c.toNat - 97 + 10)
  else if 'A' ≤ c ∧ c ≤ 'Z' then some (c.toNat - 65 + 10)
  else none

/-- Accumulate digits in the given base; underscores are permitted between
digits (base-0 literal syntax); at least one digit is required. -/
def parseDigits (base : Nat) : List Char → Nat → Bool → Option Nat
  | [], acc, sawDigit => if sawDigit then some acc else none
  | c :: cs, acc, sawDigit =>
      if c = '_' then parseDigits base cs acc sawDigit
      else
        match digitVal c with
        | some d => if d < base then parseDigits base cs (acc * base + d) true else none
        | none => none

/-- Split off a base prefix for base-0 parsing (`0x`, `0o`, `0b`, legacy
leading `0` = octal, otherwise decimal). -/
def splitBasePrefix : List Char → Nat × List Char
  | '0' :: 'x' :: cs => (16, cs)
  | '0' :: 'X' :: cs => (16, cs)
  | '0' :: 'o' :: cs => (8, cs)
  | '0' :: 'O' :: cs => (8, cs)
  | '0' :: 'b' :: cs => (2, cs)
  | '0' :: 'B' :: cs => (2, cs)
  | '0' :: c :: cs => (8, c :: cs)
  | cs => (10, cs)

/-- `strconv.ParseUint(s, 0, bits)`: no sign permitted; base inferred from
the prefix; value must be below `2^bits`. -/
def goParseUint (s : String) (bits : Nat) : Except String Nat :=
  let (base, cs) := splitBasePrefix s.data
  match parseDigits base cs 0 false with
  | none => .error ("strconv.ParseUint: parsing " ++ s ++ ": invalid syntax")
  | some n =>
      if n < 2 ^ bits then .ok n
      else .error ("strconv.ParseUint: parsing " ++ s ++ ": value out of range")

/-- `strconv.ParseInt(s, 0, bits)`: optional sign, then an unsigned
literal; the signed value must fit in `bits` bits. -/
def goParseInt (s : String) (bits : Nat) : Except String Int :=
  let (neg, cs) :=
    match s.data with
    | '-' :: cs => (true, cs)
    | '+' :: cs => (false, cs)
    | cs => (false, cs)
  let (base, cs) := splitBasePrefix cs
  match parseDigits base cs 0 false with
  | none => .error ("strconv.ParseInt: parsing " ++ s ++ ": invalid syntax")
  | some n =>
      let v : Int := if neg then -(n : Int) else (n : Int)
      if -(2 ^ (bits - 1) : Int) ≤ v ∧ v < 2 ^ (bits - 1) then .ok v
      else .error ("strconv.ParseInt: parsing " ++ s ++ ": value out of range")

/-- `reflect.Value.SetInt` into a `bits`-wide signed destination: two's
complement truncation. -/
def wrapInt (bits : Nat) (n : Int) : Int :=
  let m := n.emod (2 ^ bits)
  if m ≥ 2 ^ (bits - 1) then m - 2 ^ bits else m

/-- `reflect.Value.SetUint` into a `bits`-wide unsigned destination. -/
def wrapUint (bits : Nat) (n : Int) : Nat :=
  (n.emod (2 ^ bits)).toNat

/-- `strconv.FormatInt(n, 10)` / `FormatUint`. -/
def formatInt (n : Int) : String := toString n

/-! ### Namespace / path tracker (error.go:10-190)

In this pure layer a namespace is the list of its segments, i.e. the value
semantics that `Namespace.Duplicate` is intended to provide (the engine
duplicates before every append).  The Go-slice aliasing of the actual
`Duplicate` implementation is modelled separately below. -/

/-- One namespace segment: a struct field (name, tag, and whether the tag
is preferred for rendering — `NamespaceFld`), a map key (rendered with
`%v`), or a sequence index. -/
inductive Seg where
  | fld (name tag : String) (useTag : Bool)
  | key (s : String)
  | idx (i : Int)
deriving DecidableEq, Repr

/-- `NamespaceFld.String()` (error.go:43-49): the tag is used if preferred
and defined. -/
def Seg.fldStr (name tag : String) (useTag : Bool) : String :=
  if useTag ∧ tag ≠ "" then tag else name

/-- One segment of `NamespaceFormatterDefault` (error.go:53-73): the `.`
separator is applied only to field segments; keys and indices render in
bracket notation and ignore the separator. -/
def segToStr (sep : String) : Seg → String
  | .fld n t u => sep ++ Seg.fldStr n t u
  | .key s => "[" ++ s ++ "]"
  | .idx i => "[" ++ toString i ++ "]"

/-- `NamespaceFormatterDefault`: first segment without separator, the rest
with separator `"."`. -/
def nsFmt : List Seg → String
  | [] => ""
  | s :: rest => segToStr "" s ++ String.join (rest.map (segToStr "."))

/-- `Namespace.UseFldTag` (error.go:158-165): set the tag preference of
every field segment. -/
def nsUseFldTag (useTag : Bool) (ns : List Seg) : List Seg :=
  ns.map fun s =>
    match s with
    | .fld n t _ => .fld n t useTag
    | s => s

/-! ### Error model (error.go:192-504) -/

/-- `DecodingErrorKind` (error.go:209-234), restricted to the kinds the
modelled engine raises. -/
inductive DErrKind where
  | unsupportedType
  | unexpectedType
  | parseFailure
  | parseOverflow
  | srcSquashFailure
  | unusedKeys
  | unsetFields
  | generic
deriving DecidableEq, Repr

/-- `DecodingError` (error.go:265-272): namespace, kind, optional header,
and the message of the wrapped error.  The source/destination value
snapshots are diagnostic only and not modelled. -/
structure DecodingError where
  ns : List Seg
  kind : DErrKind
  header : String
  msg : String
deriving Repr

/-- `DecodingError.Error()` (error.go:365-370). -/
def DecodingError.errString (e : DecodingError) : String :=
  if e.ns ≠ [] then "@'" ++ nsFmt e.ns ++ "': " ++ e.header ++ e.msg
  else e.msg

/-- Modelled from the spec: `NewDecodingErrorFormat` is referenced by
part_005 but defined outside src/; per the error model it builds a single
`DecodingError` with a formatted message and no namespace yet. -/
def NewDecodingErrorFormat (kind : DErrKind) (msg : String) (ns : List Seg) : DecodingError :=
  { ns := ns, kind := kind, header := "", msg := msg }

/-- Modelled from the spec: `NewDecodingErrorWrap` wraps an underlying
error (here: its message) and lets a header be attached
(`SetHeader`). -/
def NewDecodingErrorWrap (kind : DErrKind) (header wrapped : String) (ns : List Seg) : DecodingError :=
  { ns := ns, kind := kind, header := header, msg := wrapped }

/-- A Go `error` value as the engine sees it: a single `*DecodingError`,
a `*DecodingErrors` aggregate, or any other error (`errors.New`, hook
errors). -/
inductive GoError where
  | single (e : DecodingError)
  | multi (es : List DecodingError)
  | plain (msg : String)
deriving Repr

/-- `DecodingErrors` (error.go:392-395): the aggregate. -/
structure DecodingErrors where
  errors : List DecodingError
deriving Repr

/-- `DefaultDecodingErrorsFormatter` (error.go:381-390): render each
member as a `* ...` bullet, sort the bullets, and join them under the
count header. -/
def DefaultDecodingErrorsFormatter (e : DecodingErrors) : String :=
  let points := e.errors.map (fun er => "* " ++ er.errString)
  let sorted := points.insertionSort (· ≤ ·)
  toString e.errors.length ++ " error(s) decoding:\n\n" ++ String.intercalate "\n" sorted

/-- `AsDecodingError` (error.go:281-289): a `*DecodingError` passes
through; any other error is wrapped as a generic `DecodingError`.  (The
`Append` default branch never receives an aggregate, but the total model
renders one through its formatter, matching `Wrap`.) -/
def AsDecodingError : GoError → DecodingError
  | .single e => e
  | .plain m => { ns := [], kind := .generic, header := "", msg := m }
  | .multi es => { ns := [], kind := .generic, header := "",
                   msg := DefaultDecodingErrorsFormatter ⟨es⟩ }

/-- `DecodingErrors.Append` (error.go:427-440): a nil error is ignored;
an incoming aggregate is spliced member by member; any other error is
wrapped as a single `DecodingError` and appended. -/
def DecodingErrors.Append (e : DecodingErrors) (err : Option GoError) : DecodingErrors :=
  match err with
  | none => e
  | some (.multi es) => ⟨e.errors ++ es⟩
  | some g => ⟨e.errors ++ [AsDecodingError g]⟩

/-- `AsDecodingErrors` (error.go:401-409): an aggregate passes through,
anything else becomes a one-member aggregate via `Append`. -/
def AsDecodingErrors : GoError → List DecodingError
  | .multi es => es
  | g => [AsDecodingError g]

/-- The number of flattened members an error contributes when appended to
an aggregate. -/
def memberCount : GoError → Nat
  | .multi es => es.length
  | _ => 1

def memberCountOpt : Option GoError → Nat
  | none => 0
  | some g => memberCount g

/-- `PrependNamespace` on a `DecodingError` (error.go:350-353). -/
def DecodingError.prependNs (ns : List Seg) (e : DecodingError) : DecodingError :=
  { e with ns := ns ++ e.ns }

/-- `AsLocalizedError(err).PrependNamespace(ns)` as used at
part_005:464: applied to every member of an aggregate, or to the single
wrapped error. -/
def GoError.prependNs (ns : List Seg) : GoError → GoError
  | .single e => .single (e.prependNs ns)
  | .multi es => .multi (es.map (DecodingError.prependNs ns))
  | .plain m => .single (DecodingError.prependNs ns { ns := [], kind := .generic, header := "", msg := m })

/-- `SetNamespaceUseFldTag` applied to every member (error.go:478-483). -/
def GoError.setUseFldTag (u : Bool) : GoError → GoError
  | .single e => .single { e with ns := nsUseFldTag u e.ns }
  | .multi es => .multi (es.map fun e => { e with ns := nsUseFldTag u e.ns })
  | .plain m => .plain m

/-! ### Hook pipeline (decode_hooks.go) -/

/-- `DecodeHookFuncKind`, the canonical hook signature of
decode_hooks.go:13-31: `(source kind, destination kind, value)` to a
transformed value or an error. -/
abbrev Hook := Kind → Kind → Value → Except String Value

/-- One iteration of the `ComposeDecodeHookFunc` loop body: run the next
hook on the current `(f, data)` state, stop on error, and recompute the
source kind from the new data. -/
def composeStep (t : Kind) (acc : Except String (Kind × Value)) (f1 : Hook) :
    Except String (Kind × Value) :=
  match acc with
  | .error e => .error e
  | .ok (f, data) =>
      match f1 f t data with
      | .error err => .error err
      | .ok data2 => .ok (getKindV data2, data2)

/-- `ComposeDecodeHookFunc` (decode_hooks.go:13-31): the composed hook
runs its members in order, feeding each result forward; an error stops the
loop and is returned; after every member call the source kind is
recomputed from the current value (`f = getKind(reflect.ValueOf(data))`). -/
def ComposeDecodeHookFunc (fs : List Hook) : Hook :=
  fun f t data =>
    (fs.foldl (composeStep t) (.ok (f, data))).map (fun p => p.2)

/-- Modelled from the spec: `DecodeHookExec` is invoked at part_005:458
but defined outside src/; for the kind-based hook form it passes the
kinds of the source value and of the destination and the raw value. -/
def DecodeHookExec (h : Hook) (inputVal : Value) (outTy : DType) : Except String Value :=
  h (getKindV inputVal) (getKindTy outTy) inputVal

/-! ### Configuration (part_005:198-411) -/

/-- Case-folding character equality for the `strings.EqualFold` model. -/
def charsEqFold : List Char → List Char → Bool
  | [], [] => true
  | a :: as, b :: bs => (a.toLower == b.toLower) && charsEqFold as bs
  | _, _ => false

/-- Model of `strings.EqualFold`, the default `MatchName`
(part_005:402-404); modelled as case-insensitive equality. -/
def strEqualFold (a b : String) : Bool :=
  charsEqFold a.data b.data

/-- `strings.Split(s, ",")`: split at every separator character; the
empty string yields one empty part. -/
def goSplitAux (sep : Char) : List Char → List Char → List String
  | [], acc => [String.mk acc.reverse]
  | c :: cs, acc =>
      if c = sep then String.mk acc.reverse :: goSplitAux sep cs []
      else goSplitAux sep cs (c :: acc)

def goSplit (s : String) (sep : Char) : List String :=
  goSplitAux sep s.data []

def charsHasPrefix : List Char → List Char → Bool
  | _, [] => true
  | [], _ :: _ => false
  | c :: cs, p :: ps => (c == p) && charsHasPrefix cs ps

def charsContains : List Char → List Char → Bool
  | s, sub => charsHasPrefix s sub ||
      match s with
      | [] => false
      | _ :: cs => charsContains cs sub

/-- A validated decoder configuration as the engine reads it: the result
of `NewDecoder`'s defaulting of `TagName` and `MatchName`
(part_005:398-404).  `hasMetadata` models `config.Metadata != nil`. -/
structure Config where
  decodeHook : Option Hook := none
  errorUnused : Bool := false
  errorUnset : Bool := false
  zeroFields : Bool := false
  weaklyTypedInput : Bool := false
  squash : Bool := false
  hasMetadata : Bool := false
  ignoreUntaggedFields : Bool := false
  tagName : String := "mapstructure"
  matchName : String → String → Bool := strEqualFold

/-- The three `Metadata` lists (part_005:289-301), as the delta appended
by one call. -/
structure Meta where
  keys : List String := []
  unused : List String := []
  unset : List String := []

def Meta.app (a b : Meta) : Meta :=
  ⟨a.keys ++ b.keys, a.unused ++ b.unused, a.unset ++ b.unset⟩

/-- Result of a `decodeXxx` helper: the destination value after the call
(the helpers mutate the destination through `reflect`), the metadata
delta, and the returned error. -/
structure HRes where
  val : Value
  meta : Meta := {}
  err : Option GoError := none

/-- Result of `Decoder.decode`: same, but the error is always a
`*DecodingErrors` aggregate (part_005:464,512). -/
structure DRes where
  val : Value
  meta : Meta := {}
  err : Option (List DecodingError) := none

/-- The type of the recursive entry point handed to the helpers. -/
abbrev DecFn := List Seg → Value → DType → Value → DRes

def kindStr : Kind → String
  | .kBool => "bool"
  | .kInt => "int"
  | .kUint => "uint"
  | .kString => "string"
  | .kMap => "map"
  | .kSlice => "slice"
  | .kStruct => "struct"
  | .kPtr => "ptr"
  | .kInterface => "interface"
  | .kInvalid => "invalid"

/-- The `"expected type '%s', got unconvertible type '%s', value: '%v'"`
error every scalar decoder raises in its default branch. -/
def unconvertibleErr (ty : DType) (dataVal data : Value) (ns : List Seg) : DecodingError :=
  NewDecodingErrorFormat .unexpectedType
    ("expected type '" ++ tyStr ty ++ "', got unconvertible type '" ++
      tyStr (typeOf dataVal) ++ "', value: '" ++ formatV data ++ "'") ns

/-! ### Scalar decoders (part_005:574-836) -/

/-- `decodeBool` (part_005:748-782). -/
def decodeBool (cfg : Config) (ns : List Seg) (data : Value) (ty : DType) (val : Value) :
    Value × Option DecodingError :=
  let dataVal := indirect data
  match dataVal with
  | .vBool b => (.vBool b, none)
  | .vInt n =>
      if cfg.weaklyTypedInput then (.vBool (n ≠ 0), none)
      else (val, some (unconvertibleErr ty dataVal data ns))
  | .vUint n =>
      if cfg.weaklyTypedInput then (.vBool (n ≠ 0), none)
      else (val, some (unconvertibleErr ty dataVal data ns))
  | .vString s =>
      if cfg.weaklyTypedInput then
        match goParseBool s with
        | some b => (.vBool b, none)
        | none =>
            if s = "" then (.vBool false, none)
            else (val, some (NewDecodingErrorWrap .parseFailure "cannot parse as bool: "
                    ("strconv.ParseBool: parsing " ++ s ++ ": invalid syntax") ns))
      else (val, some (unconvertibleErr ty dataVal data ns))
  | _ => (val, some (unconvertibleErr ty dataVal data ns))

/-- `decodeInt` (part_005:627-678).  The `json.Number` branch is outside
the modelled universe. -/
def decodeInt (cfg : Config) (ns : List Seg) (data : Value) (bits : Nat) (val : Value) :
    Value × Option DecodingError :=
  let dataVal := indirect data
  let ty := DType.dInt bits
  match dataVal with
  | .vInt n => (.vInt (wrapInt bits n), none)
  | .vUint n => (.vInt (wrapInt bits (Int.ofNat n)), none)
  | .vBool b =>
      if cfg.weaklyTypedInput then (.vInt (if b then 1 else 0), none)
      else (val, some (unconvertibleErr ty dataVal data ns))
  | .vString s =>
      if cfg.weaklyTypedInput then
        let str := if s = "" then "0" else s
        match goParseInt str bits with
        | .ok i => (.vInt i, none)
        | .error m => (val, some (NewDecodingErrorWrap .parseFailure "cannot parse as int: " m ns))
      else (val, some (unconvertibleErr ty dataVal data ns))
  | _ => (val, some (unconvertibleErr ty dataVal data ns))

/-- `decodeUint` (part_005:680-746). -/
def decodeUint (cfg : Config) (ns : List Seg) (data : Value) (bits : Nat) (val : Value) :
    Value × Option DecodingError :=
  let dataVal := indirect data
  let ty := DType.dUint bits
  match dataVal with
  | .vInt i =>
      if i < 0 ∧ ¬cfg.weaklyTypedInput then
        (val, some (NewDecodingErrorFormat .parseOverflow
          ("cannot parse: " ++ toString i ++ " overflows uint") ns))
      else (.vUint (wrapUint bits i), none)
  | .vUint u => (.vUint (wrapUint bits (Int.ofNat u)), none)
  | .vBool b =>
      if cfg.weaklyTypedInput then (.vUint (if b then 1 else 0), none)
      else (val, some (unconvertibleErr ty dataVal data ns))
  | .vString s =>
      if cfg.weaklyTypedInput then
        let str := if s = "" then "0" else s
        match goParseUint str bits with
        | .ok u => (.vUint u, none)
        | .error m => (val, some (NewDecodingErrorWrap .parseFailure "cannot parse as uint: " m ns))
      else (val, some (unconvertibleErr ty dataVal data ns))
  | _ => (val, some (unconvertibleErr ty dataVal data ns))

/-- Conversion of a byte slice to a string (`string(uints)`); rendered
per byte (the model does not re-validate UTF-8). -/
def stringOfBytes : VList → String
  | .nil => ""
  | .cons (.vUint n) t => String.singleton (Char.ofNat n) ++ stringOfBytes t
  | .cons _ t => stringOfBytes t

/-- `decodeString` (part_005:574-625).  Array sources are outside the
modelled universe. -/
def decodeString (cfg : Config) (ns : List Seg) (data : Value) (val : Value) :
    Value × Option DecodingError :=
  let dataVal := indirect data
  let ty := DType.dString
  match dataVal with
  | .vString s => (.vString s, none)
  | .vBool b =>
      if cfg.weaklyTypedInput then (.vString (if b then "1" else "0"), none)
      else (val, some (unconvertibleErr ty dataVal data ns))
  | .vInt n =>
      if cfg.weaklyTypedInput then (.vString (formatInt n), none)
      else (val, some (unconvertibleErr ty dataVal data ns))
  | .vUint n =>
      if cfg.weaklyTypedInput then (.vString (toString n), none)
      else (val, some (unconvertibleErr ty dataVal data ns))
  | .vSlice ety l =>
      if cfg.weaklyTypedInput ∧ DType.beq ety (.dUint 8) then
        (.vString (stringOfBytes l), none)
      else (val, some (unconvertibleErr ty dataVal data ns))
  | .vSliceNil ety =>
      if cfg.weaklyTypedInput ∧ DType.beq ety (.dUint 8) then
        (.vString "", none)
      else (val, some (unconvertibleErr ty dataVal data ns))
  | _ => (val, some (unconvertibleErr ty dataVal data ns))

/-! ### Composite decoders (part_005:517-572, 838-1543) -/

/-- `t.AssignableTo(u)` over the modelled universe: identical types, or
assignment to the empty interface. -/
def assignableTo (t u : DType) : Bool :=
  DType.beq t u || DType.beq u .dInterface

/-- `decodeBasic` (part_005:517-572): decoding into an (empty) interface
destination.  When the destination interface already holds a value the
engine decodes into a copy of that value and replaces the interface on
success (the copy is discarded on error). -/
def decodeBasic (dec : DecFn) (ns : List Seg) (data : Value) (val : Value) : HRes :=
  match val with
  | .vNil =>
      -- pointer indirection: *T into an interface elem of type T
      let dataVal :=
        match data with
        | .vPtr ety v => if DType.beq ety .dInterface then v else .vPtr ety v
        | v => v
      let dataVal := if dataVal matches .vNil then zeroValue .dInterface else dataVal
      if assignableTo (typeOf dataVal) .dInterface then
        { val := dataVal }
      else
        { val := val,
          err := some (.single (NewDecodingErrorFormat .unexpectedType
            ("expected type '" ++ tyStr .dInterface ++ "', got '" ++
              tyStr (typeOf dataVal) ++ "'") ns)) }
  | elem =>
      let r := dec ns data (typeOf elem) elem
      match r.err with
      | some es => { val := val, meta := r.meta, err := some (.multi es) }
      | none => { val := r.val, meta := r.meta }

def VEntries.keyList : VEntries → List Value
  | .nil => []
  | .cons k _ t => k :: t.keyList

/-- `decodeMapFromMap`'s entry loop (part_005:917-935): decode the key,
on failure collect and skip the entry; decode the value, on failure
collect and skip; otherwise store into the working map. -/
def decodeMapFromMapLoop (dec : DecFn) (ns : List Seg) (kty vty : DType) :
    VEntries → VEntries → VEntries × List DecodingError × Meta
  | .nil, valMap => (valMap, [], {})
  | .cons k v tl, valMap =>
      let rk := dec (ns ++ [.key (formatV k)]) k kty (zeroValue kty)
      match rk.err with
      | some es =>
          let (vm, errs, m) := decodeMapFromMapLoop dec ns kty vty tl valMap
          (vm, es ++ errs, rk.meta.app m)
      | none =>
          let rv := dec (ns ++ [.key (formatV k)]) v vty (zeroValue vty)
          match rv.err with
          | some es =>
              let (vm, errs, m) := decodeMapFromMapLoop dec ns kty vty tl valMap
              (vm, es ++ errs, (rk.meta.app rv.meta).app m)
          | none =>
              let (vm, errs, m) :=
                decodeMapFromMapLoop dec ns kty vty tl (valMap.setIndex rk.val rv.val)
              (vm, errs, (rk.meta.app rv.meta).app m)

/-- `decodeMapFromMap` (part_005:895-944): an empty source matches the
source's nil-ness; otherwise every entry is decoded independently, the
built-up map is assigned to the destination, and only then the
accumulated errors (if any) are returned. -/
def decodeMapFromMap (dec : DecFn) (ns : List Seg) (srcNil : Bool) (srcEntries : VEntries)
    (kty vty : DType) (val : Value) (valMap : VEntries) : HRes :=
  if srcEntries.length = 0 then
    if srcNil then
      if ¬valueIsNil val then { val := .vMapNil kty vty } else { val := val }
    else { val := .vMap kty vty valMap }
  else
    let (vm, errs, m) := decodeMapFromMapLoop dec ns kty vty srcEntries valMap
    { val := .vMap kty vty vm, meta := m,
      err := if errs.length > 0 then some (.multi errs) else none }

/-- `decodeMapFromSlice` (part_005:877-893): each element is decoded into
the same map destination; the first failure aborts. -/
def decodeMapFromSliceLoop (dec : DecFn) (ns : List Seg) (mapTy : DType) :
    VList → Value → Meta → HRes
  | .nil, val, m => { val := val, meta := m }
  | .cons e tl, val, m =>
      let r := dec ns e mapTy val
      match r.err with
      | some es => { val := r.val, meta := m.app r.meta, err := some (.multi es) }
      | none => decodeMapFromSliceLoop dec ns mapTy tl r.val (m.app r.meta)

def decodeMapFromSlice (dec : DecFn) (ns : List Seg) (elems : VList)
    (kty vty : DType) (val : Value) (valMap : VEntries) : HRes :=
  if elems.length = 0 then { val := .vMap kty vty valMap }
  else decodeMapFromSliceLoop dec ns (.dMap kty vty) elems val {}

/-- `strings.Index(s, sub) != -1`. -/
def hasSubstr (s sub : String) : Bool :=
  charsContains s.data sub.data

def DFields.anyTagNonempty : DFields → Bool
  | .nil => false
  | .cons _ t _ _ tl => (t ≠ "") || tl.anyTagNonempty

/-- `isStructTypeConvertibleToMap` (part_005:1578-1589), with
`checkMapstructureTags = true` as its only caller passes: some field has
a non-empty tag.  (All modelled fields are exported.) -/
def isStructTypeConvertibleToMap (typ : DFields) : Bool :=
  typ.anyTagNonempty

/-- `dereferencePtrToStructIfNeeded` (part_005:1591-1601). -/
def dereferencePtrToStructIfNeeded (v : Value) : Value :=
  match v with
  | .vPtr ety (.vStruct sfs svals) =>
      if isStructTypeConvertibleToMap sfs then .vStruct sfs svals else .vPtr ety (.vStruct sfs svals)
  | v => v

/-- `isEmptyValue` (part_005:1545-1561). -/
def isEmptyValue (v : Value) : Bool :=
  match v with
  | .vMapNil _ _ => true
  | .vMap _ _ es => es.length = 0
  | .vSliceNil _ => true
  | .vSlice _ l => l.length = 0
  | .vString s => s = ""
  | .vBool b => !b
  | .vInt n => n == 0
  | .vUint n => n == 0
  | .vNil => true
  | .vPtrNil _ => true
  | .vPtr _ _ => false
  | .vStruct _ _ => false

/-- `decodeMapFromStruct`'s field loop (part_005:948-1053).  Source
struct fields are flattened into the working map; any error aborts
immediately (this direction does not accumulate). -/
def decodeMapFromStructLoop (dec : DecFn) (cfg : Config) (ns : List Seg)
    (kty vty : DType) :
    DFields → VList → VEntries → Meta → VEntries × Meta × Option GoError
  | .nil, _, valMap, m => (valMap, m, none)
  | .cons name tag _anon _ty tl, svals, valMap, m =>
      let v := match svals with | .cons h _ => h | .nil => Value.vNil
      let stl := match svals with | .cons _ t => t | .nil => VList.nil
      if ¬assignableTo (typeOf v) vty then
        (valMap, m, some (.single (NewDecodingErrorFormat .unexpectedType
          ("cannot assign type '" ++ tyStr (typeOf v) ++
            "' to map value field of type '" ++ tyStr vty ++ "'") ns)))
      else
      let tagValue := tag
      let keyName := name
      if tagValue = "" ∧ cfg.ignoreUntaggedFields then
        decodeMapFromStructLoop dec cfg ns kty vty tl stl valMap m
      else
      let squash0 := cfg.squash && getKindV v == .kStruct && _anon
      let dv := dereferencePtrToStructIfNeeded v
      let parts := goSplit tagValue ','
      let pre := parts.headD ""
      let rest := String.intercalate "," parts.tail
      let hasComma := parts.length > 1
      -- tag processing (part_005:979-1012)
      let skip :=
        if hasComma then
          pre = "-" ∨ (hasSubstr rest "omitempty" ∧ isEmptyValue dv)
        else
          tagValue ≠ "" ∧ tagValue = "-"
      if skip then decodeMapFromStructLoop dec cfg ns kty vty tl stl valMap m
      else
      let squash := if hasComma then squash0 || hasSubstr rest "squash" else squash0
      let dv := if squash then
                  match dv with
                  | .vPtr _ (.vStruct g w) => .vStruct g w
                  | dv => dv
                else dv
      if squash ∧ getKindV dv ≠ .kStruct then
        (valMap, m, some (.single (NewDecodingErrorFormat .srcSquashFailure
          ("cannot squash non-struct type '" ++ tyStr (typeOf dv) ++ "'") ns)))
      else
      let keyName := if hasComma then (if pre ≠ "" then pre else keyName)
                     else (if tagValue ≠ "" then tagValue else keyName)
      match dv with
      | .vStruct g w =>
          -- an embedded struct source value decodes into a fresh map first
          let r := dec (ns ++ [.key keyName]) (.vStruct g w) (.dMap kty vty) (.vMap kty vty .nil)
          match r.err with
          | some es => (valMap, m.app r.meta, some (.multi es))
          | none =>
              let vMap := match r.val with | .vMap _ _ es => es | _ => VEntries.nil
              let valMap :=
                if squash then vMap.toList.foldl (fun acc e => acc.setIndex e.1 e.2) valMap
                else valMap.setIndex (.vString keyName) (.vMap kty vty vMap)
              decodeMapFromStructLoop dec cfg ns kty vty tl stl valMap (m.app r.meta)
      | dv =>
          decodeMapFromStructLoop dec cfg ns kty vty tl stl
            (valMap.setIndex (.vString keyName) dv) m

/-- `decodeMapFromStruct` (part_005:946-1060). -/
def decodeMapFromStruct (dec : DecFn) (cfg : Config) (ns : List Seg)
    (sfs : DFields) (svals : VList) (kty vty : DType) (valMap : VEntries) : HRes :=
  let (vm, m, err) := decodeMapFromStructLoop dec cfg ns kty vty sfs svals valMap {}
  match err with
  | some e => { val := .vMap kty vty vm, meta := m, err := some e }
  | none => { val := .vMap kty vty vm, meta := m }

/-- `decodeMap` (part_005:838-875): choose a working map (fresh when the
destination is nil or `ZeroFields` is set, otherwise merge into the
existing one) and dispatch on the source kind. -/
def decodeMap (dec : DecFn) (cfg : Config) (ns : List Seg) (data : Value)
    (ty : DType) (val : Value) : HRes :=
  match ty with
  | .dMap kty vty =>
      let valMap : VEntries :=
        if valueIsNil val ∨ cfg.zeroFields then .nil
        else match val with | .vMap _ _ es => es | _ => .nil
      let dataVal := indirect data
      match dataVal with
      | .vMap _ _ es => decodeMapFromMap dec ns false es kty vty val valMap
      | .vMapNil _ _ => decodeMapFromMap dec ns true .nil kty vty val valMap
      | .vStruct sfs svals => decodeMapFromStruct dec cfg ns sfs svals kty vty valMap
      | .vSlice _ es =>
          if cfg.weaklyTypedInput then decodeMapFromSlice dec ns es kty vty val valMap
          else { val := val, err := some (.single (NewDecodingErrorFormat .unexpectedType
                  ("expected a map, got '" ++ kindStr (getKindV dataVal) ++ "'") ns)) }
      | .vSliceNil _ =>
          if cfg.weaklyTypedInput then decodeMapFromSlice dec ns .nil kty vty val valMap
          else { val := val, err := some (.single (NewDecodingErrorFormat .unexpectedType
                  ("expected a map, got '" ++ kindStr (getKindV dataVal) ++ "'") ns)) }
      | _ => { val := val, err := some (.single (NewDecodingErrorFormat .unexpectedType
                ("expected a map, got '" ++ kindStr (getKindV dataVal) ++ "'") ns)) }
  | _ =>
      -- `decodeMap` is only reached with a map destination; Go would
      -- panic on `val.Type().Key()` otherwise.
      { val := val, err := some (.plain "decodeMap: non-map destination") }

/-- `decodePtr` (part_005:1062-1107).  Returns `(addMetaKey, result)`. -/
def decodePtr (dec : DecFn) (cfg : Config) (ns : List Seg) (data : Value)
    (ety : DType) (val : Value) : Bool × HRes :=
  let isNil := valueIsNil (indirect data)
  if isNil then
    if ¬valueIsNil val then (true, { val := .vPtrNil ety }) else (true, { val := val })
  else
    let fresh := valueIsNil val ∨ cfg.zeroFields
    let inner := if fresh then zeroValue ety
                 else match val with | .vPtr _ pv => pv | _ => zeroValue ety
    let r := dec ns data ety inner
    match r.err with
    | some es =>
        -- on error `val.Set(realVal)` is not reached: a freshly allocated
        -- pointee is discarded, an existing pointee was mutated in place
        let after := if fresh then val else .vPtr ety r.val
        (false, { val := after, meta := r.meta, err := some (.multi es) })
    | none => (false, { val := .vPtr ety r.val, meta := r.meta })

def VList.replicate : Nat → Value → VList
  | 0, _ => .nil
  | n + 1, v => .cons v (VList.replicate n v)

def VList.take : Nat → VList → VList
  | 0, _ => .nil
  | _, .nil => .nil
  | n + 1, .cons h t => .cons h (VList.take n t)

/-- `decodeSlice`'s per-index loop (part_005:1180-1190): extend the
working slice with zero elements as needed and decode each index
independently into its element, collecting errors. -/
def decodeSliceLoop (dec : DecFn) (ns : List Seg) (ety : DType) :
    Nat → VList → VList → VList × List DecodingError × Meta
  | _, .nil, _ => (.nil, [], {})
  | i, .cons x xs, old =>
      let init := match old with | .cons o _ => o | .nil => zeroValue ety
      let oldTl := match old with | .cons _ t => t | .nil => VList.nil
      let r := dec (ns ++ [.idx (Int.ofNat i)]) x ety init
      let (tl, errs, m) := decodeSliceLoop dec ns ety (i + 1) xs oldTl
      (.cons r.val tl,
       (match r.err with | some es => es | none => []) ++ errs,
       r.meta.app m)

/-- The array/slice-source body of `decodeSlice` (part_005:1164-1199). -/
def decodeSliceGo (dec : DecFn) (cfg : Config) (ns : List Seg) (ety : DType)
    (xs : VList) (val : Value) : HRes :=
  let old : VList :=
    if valueIsNil val ∨ cfg.zeroFields then VList.replicate xs.length (zeroValue ety)
    else
      match val with
      | .vSlice _ o => if o.length > xs.length then VList.take xs.length o else o
      | _ => .nil
  let (out, errs, m) := decodeSliceLoop dec ns ety 0 xs old
  { val := .vSlice ety out, meta := m,
    err := if errs.length > 0 then some (.multi errs) else none }

/-- `decodeSlice` (part_005:1123-1199).  The weak-typing lifts re-enter
`decodeSlice` with a manufactured slice; since that call immediately takes
the slice branch, the model calls the slice body directly. -/
def decodeSlice (dec : DecFn) (cfg : Config) (ns : List Seg) (data : Value)
    (ety : DType) (val : Value) : HRes :=
  let dataVal := indirect data
  match dataVal with
  | .vSliceNil _ =>
      -- a nil slice source allocates nothing (empty != nil)
      { val := val }
  | .vSlice _ xs => decodeSliceGo dec cfg ns ety xs val
  | _ =>
      if cfg.weaklyTypedInput then
        match dataVal with
        | .vMapNil _ _ => { val := .vSlice ety .nil }
        | .vMap _ _ es =>
            if es.length = 0 then { val := .vSlice ety .nil }
            else decodeSliceGo dec cfg ns ety (.cons data .nil) val
        | .vString s =>
            if DType.beq ety (.dUint 8) then
              decodeSliceGo dec cfg ns ety
                (VList.ofList (s.toUTF8.toList.map (fun b => .vUint b.toNat))) val
            else decodeSliceGo dec cfg ns ety (.cons data .nil) val
        | _ => decodeSliceGo dec cfg ns ety (.cons data .nil) val
      else
        { val := val, err := some (.single (NewDecodingErrorFormat .unexpectedType
            ("source data must be an array or slice, got " ++ kindStr (getKindV dataVal)) ns)) }

/-! ### Struct decoding (part_005:1269-1543) -/

/-- Access a (possibly embedded) struct field by its index path.  A
pointer-to-struct field is traversed through its pointee, mirroring
part_005:1361-1364 where such a `fieldVal` is replaced by its `Elem()`. -/
def fieldAt : Value → List Nat → Option Value
  | v, [] => some v
  | v, i :: p =>
      match v with
      | .vStruct _ vals =>
          match vals.get? i with
          | some fv =>
              let fv := match fv with
                        | .vPtr _ (.vStruct g w) => Value.vStruct g w
                        | fv => fv
              fieldAt fv p
          | none => none
      | _ => none

/-- Write a struct field by index path; writes through a
pointer-to-struct field update its pointee (the engine holds the
dereferenced `reflect.Value`). -/
def setFieldAt : Value → List Nat → Value → Value
  | _, [], nv => nv
  | v, i :: p, nv =>
      match v with
      | .vStruct fty vals =>
          match vals.get? i with
          | some fv =>
              match fv with
              | .vPtr t (.vStruct g w) =>
                  .vStruct fty (vals.set i (.vPtr t (setFieldAt (.vStruct g w) p nv)))
              | fv => .vStruct fty (vals.set i (setFieldAt fv p nv))
          | none => v
      | _ => v

/-- One field to decode, as collected by the squash-aware field walk:
name, raw tag, the type of the decode target (the pointee type for a
dereferenced pointer-to-struct field), and the index path to it. -/
structure FieldC where
  name : String
  tag : String
  ty : DType
  path : List Nat

/-- The tag-flag scan of part_005:1372-1382: the first `squash` or
`remain` element wins and stops the scan (`break`). -/
def scanFlags (squash0 : Bool) : List String → Bool × Bool
  | [] => (squash0, false)
  | t :: ts =>
      if t = "squash" then (true, false)
      else if t = "remain" then (squash0, true)
      else scanFlags squash0 ts

/-- The type of a field's decode target: the pointee struct type when the
collected `fieldVal` was dereferenced (part_005:1361-1364), the declared
field type otherwise. -/
def effFieldTy (ty : DType) (fv : Value) : DType :=
  match ty, fv with
  | .dPtr (.dStruct _), .vStruct g _ => DType.dStruct g
  | ty, _ => ty

/-- Walk the fields of one struct of the BFS queue
(part_005:1358-1404), producing squashed sub-structs to enqueue, the
collected decodable fields, the `remain` field if tagged, and squash
errors. -/
def collectOneStruct (cfg : Config) (val : Value) (ns : List Seg) (p : List Nat) :
    DFields → Nat →
    List (DFields × List Nat) × List FieldC × Option FieldC × List DecodingError
  | .nil, _ => ([], [], none, [])
  | .cons name tag anon ty tl, i =>
      let fv := (fieldAt val (p ++ [i])).getD .vNil
      let effTy := effFieldTy ty fv
      let squash0 := cfg.squash && getKindV fv == .kStruct && anon
      let (squash, remain) := scanFlags squash0 (goSplit tag ',').tail
      let (q, fs, rf, errs) := collectOneStruct cfg val ns p tl (i + 1)
      if squash then
        match fv with
        | .vStruct g _ => ((g, p ++ [i]) :: q, fs, rf, errs)
        | _ =>
            (q, fs, rf,
             NewDecodingErrorFormat .srcSquashFailure
               ("unsupported type for squash: " ++ kindStr (getKindV fv))
               (ns ++ [.fld name "" false]) :: errs)
      else if remain then
        (q, fs, (some { name := name, tag := tag, ty := effTy, path := p ++ [i] }).orElse (fun _ => rf), errs)
      else
        (q, { name := name, tag := tag, ty := effTy, path := p ++ [i] } :: fs, rf, errs)

/-- The breadth-first queue walk of part_005:1352-1405 over the struct
and its squashed embedded structs.  The queue discipline is Go's
unbounded loop; the fuel is always sufficient in the theorems below
(one unit per processed struct). -/
def collectStructFields (cfg : Config) (val : Value) (ns : List Seg) :
    Nat → List (DFields × List Nat) →
    List FieldC × Option FieldC × List DecodingError
  | 0, _ => ([], none, [])
  | _, [] => ([], none, [])
  | fuel + 1, (fs, p) :: queue =>
      let (q, fcs, rf, errs) := collectOneStruct cfg val ns p fs 0
      let (fcs2, rf2, errs2) := collectStructFields cfg val ns fuel (queue ++ q)
      (fcs ++ fcs2, rf2.orElse (fun _ => rf), errs ++ errs2)

def removeValue (ks : List Value) (k : Value) : List Value :=
  ks.filter (fun k2 => !Value.beq k2 k)

def insertUnique (ns : List String) (n : String) : List String :=
  if ns.contains n then ns else ns ++ [n]

/-- The field-name resolution of part_005:1418-1443: exact map lookup of
the tag-or-name, then a scan over the source keys with the configured
`MatchName` over string keys. -/
def structLookup (cfg : Config) (entries : VEntries) (allKeys : List Value) (fieldName : String) :
    Option (Value × Value) :=
  match entries.lookup (.vString fieldName) with
  | some v => some (.vString fieldName, v)
  | none =>
      match allKeys.find? (fun k =>
        match k with
        | .vString mk => cfg.matchName mk fieldName
        | _ => false) with
      | some k =>
          match entries.lookup k with
          | some v => some (k, v)
          | none => none
      | none => none

/-- The per-field decode loop of part_005:1408-1470, threading the
destination value, the unused source keys, the unset field names, the
error aggregate, and the metadata delta. -/
def structFieldLoop (dec : DecFn) (cfg : Config) (ns : List Seg)
    (entries : VEntries) (allKeys : List Value) :
    List FieldC → Value → List Value → List String → List DecodingError → Meta →
    Value × List Value × List String × List DecodingError × Meta
  | [], val, unused, unset, errs, m => (val, unused, unset, errs, m)
  | f :: fs, val, unused, unset, errs, m =>
      let tagValue := (goSplit f.tag ',').headD ""
      let fieldName := if tagValue ≠ "" then tagValue else f.name
      match structLookup cfg entries allKeys fieldName with
      | none =>
          structFieldLoop dec cfg ns entries allKeys fs val unused
            (insertUnique unset fieldName) errs m
      | some (rawMapKey, rawMapVal) =>
          let unused := removeValue unused rawMapKey
          let target := (fieldAt val f.path).getD .vNil
          let r := dec (ns ++ [.fld f.name fieldName false]) rawMapVal f.ty target
          let val := setFieldAt val f.path r.val
          let errs :=
            (DecodingErrors.Append ⟨errs⟩
              (r.err.map (fun es => (GoError.multi es).setUseFldTag true))).errors
          structFieldLoop dec cfg ns entries allKeys fs val unused unset errs (m.app r.meta)

def VEntries.filterKeys (es : VEntries) (ks : List Value) : VEntries :=
  match es with
  | .nil => .nil
  | .cons k v t =>
      if ks.any (fun k2 => Value.beq k2 k) then .cons k v (t.filterKeys ks)
      else t.filterKeys ks

def valueAsString : Value → String
  | .vString s => s
  | _ => ""  -- Go's `rawKey.(string)` panics on non-string keys

/-- `decodeStructFromMap` (part_005:1315-1543). -/
def decodeStructFromMap (dec : DecFn) (cfg : Config) (fuel : Nat) (ns : List Seg)
    (kty : DType) (entries : VEntries) (dfs : DFields) (val : Value) : HRes :=
  if getKindTy kty ≠ .kString ∧ getKindTy kty ≠ .kInterface then
    { val := val,
      err := some (.single (NewDecodingErrorFormat .unexpectedType
        ("needs a map with string keys, has '" ++ kindStr (getKindTy kty) ++ "' keys") ns)) }
  else
    let allKeys := entries.keyList
    let (fields, remainField, squashErrs) :=
      collectStructFields cfg val ns (fuel + 1) [(dfs, [])]
    let (val, unused, unset, errs, m) :=
      structFieldLoop dec cfg ns entries allKeys fields val allKeys [] squashErrs {}
    -- remain field (part_005:1474-1489)
    let (val, unused, errs, m) :=
      match remainField with
      | some rf =>
          if unused.length > 0 then
            let remain := Value.vMap .dInterface .dInterface (entries.filterKeys unused)
            let target := (fieldAt val rf.path).getD .vNil
            let r := decodeMap dec cfg ns remain rf.ty target
            (setFieldAt val rf.path r.val, ([] : List Value),
             (DecodingErrors.Append ⟨errs⟩ r.err).errors, m.app r.meta)
          else (val, unused, errs, m)
      | none => (val, unused, errs, m)
    let errs :=
      if cfg.errorUnused ∧ unused.length > 0 then
        let keys := (unused.map valueAsString).insertionSort (· ≤ ·)
        errs ++ [NewDecodingErrorFormat .unusedKeys
          ("has invalid keys: " ++ String.intercalate ", " keys) ns]
      else errs
    let errs :=
      if cfg.errorUnset ∧ unset.length > 0 then
        let keys := unset.insertionSort (· ≤ ·)
        errs ++ [NewDecodingErrorFormat .unsetFields
          ("has unset fields: " ++ String.intercalate ", " keys) ns]
      else errs
    if errs.length > 0 then { val := val, meta := m, err := some (.multi errs) }
    else
      let pfx := fun (k : String) => if ns ≠ [] then nsFmt ns ++ "." ++ k else k
      let m := if cfg.hasMetadata then
                 { m with unused := m.unused ++ unused.map (fun k => pfx (valueAsString k)),
                          unset := m.unset ++ unset.map pfx }
               else m
      { val := val, meta := m }

/-- `decodeStruct` (part_005:1269-1313): identical source and destination
types short-circuit to a direct copy; a map source decodes field by
field; a struct source goes through an intermediate
`map[string]interface{}`. -/
def decodeStruct (dec : DecFn) (cfg : Config) (fuel : Nat) (ns : List Seg)
    (data : Value) (dfs : DFields) (val : Value) : HRes :=
  let dataVal := indirect data
  if DType.beq (typeOf dataVal) (.dStruct dfs) then { val := dataVal }
  else
    match dataVal with
    | .vMap kty _ es => decodeStructFromMap dec cfg fuel ns kty es dfs val
    | .vMapNil kty _ => decodeStructFromMap dec cfg fuel ns kty .nil dfs val
    | .vStruct sfs svals =>
        let r1 := decodeMapFromStruct dec cfg ns sfs svals .dString .dInterface .nil
        match r1.err with
        | some e => { val := val, meta := r1.meta, err := some e }
        | none =>
            let mes := match r1.val with | .vMap _ _ es => es | _ => VEntries.nil
            let r2 := decodeStructFromMap dec cfg fuel ns .dString mes dfs val
            { r2 with meta := r1.meta.app r2.meta }
    | _ =>
        { val := val, err := some (.single (NewDecodingErrorFormat .unexpectedType
            ("expected a map, got '" ++ kindStr (getKindV dataVal) ++ "'") ns)) }

/-! ### The decode entry point (part_005:413-513) -/

/-- `Decoder.decode` (part_005:420-513).  A typed nil pointer input is
normalized to nil; nil input is terminal (zero the destination under
`ZeroFields`, otherwise leave it untouched) and reaches neither the hook
nor any shape dispatch.  Otherwise the hook (if any) pre-processes the
input, the destination kind selects the shape decoder, the metadata key
is recorded, and any error is wrapped as a `*DecodingErrors`.

Go's unbounded recursion is modelled with a fuel parameter; every
recursive call crosses one fuel level, and all theorems supply
sufficient fuel. -/
def decode (cfg : Config) : Nat → List Seg → Value → DType → Value → DRes
  | 0, _, _, _, outVal =>
      { val := outVal, err := some [⟨[], .generic, "", "model: out of fuel"⟩] }
  | fuel + 1, ns, input, ty, outVal =>
      let dec : DecFn := decode cfg fuel
      let input := match input with
                   | .vPtrNil _ => Value.vNil
                   | v => v
      if input matches .vNil then
        if cfg.zeroFields then
          { val := zeroValue ty,
            meta := if cfg.hasMetadata ∧ ns ≠ [] then { keys := [nsFmt ns] } else {} }
        else { val := outVal }
      else
        let hooked : Except (List DecodingError) Value :=
          match cfg.decodeHook with
          | none => .ok input
          | some h =>
              match DecodeHookExec h input ty with
              | .ok v => .ok v
              | .error e => .error (AsDecodingErrors ((GoError.plain e).prependNs ns))
        match hooked with
        | .error es => { val := outVal, err := some es }
        | .ok input =>
            let (addMetaKey, hres) : Bool × HRes :=
              match ty with
              | .dBool =>
                  let (v, e) := decodeBool cfg ns input ty outVal
                  (true, { val := v, err := e.map .single })
              | .dInterface => (true, decodeBasic dec ns input outVal)
              | .dString =>
                  let (v, e) := decodeString cfg ns input outVal
                  (true, { val := v, err := e.map .single })
              | .dInt bits =>
                  let (v, e) := decodeInt cfg ns input bits outVal
                  (true, { val := v, err := e.map .single })
              | .dUint bits =>
                  let (v, e) := decodeUint cfg ns input bits outVal
                  (true, { val := v, err := e.map .single })
              | .dStruct dfs => (true, decodeStruct dec cfg fuel ns input dfs outVal)
              | .dMap _ _ => (true, decodeMap dec cfg ns input ty outVal)
              | .dPtr ety => decodePtr dec cfg ns input ety outVal
              | .dSlice ety => (true, decodeSlice dec cfg ns input ety outVal)
            let keys' :=
              hres.meta.keys ++
                (if addMetaKey ∧ cfg.hasMetadata ∧ ns ≠ [] then [nsFmt ns] else [])
            { val := hres.val,
              meta := { hres.meta with keys := keys' },
              err := hres.err.map AsDecodingErrors }

/-! ### Decoder construction and top-level entry (part_005:303-417) -/

/-- The raw `DecoderConfig` (part_005:200-275) as handed to `NewDecoder`:
`result` is the `Result interface{}` field, `tagName`/`matchName` may
still be unset. -/
structure DecoderConfig where
  decodeHook : Option Hook := none
  errorUnused : Bool := false
  errorUnset : Bool := false
  zeroFields : Bool := false
  weaklyTypedInput : Bool := false
  squash : Bool := false
  hasMetadata : Bool := false
  ignoreUntaggedFields : Bool := false
  result : Value := .vNil
  tagName : String := ""
  matchName : Option (String → String → Bool) := none

/-- A constructed decoder: the validated configuration plus the
destination (held by `config.Result`). -/
structure Decoder where
  config : Config
  result : Value

/-- `NewDecoder` (part_005:373-411): the result must be a pointer whose
dereference is addressable (a nil pointer's `Elem()` is invalid and not
addressable); then the tag name and match function are defaulted. -/
def NewDecoder (config : DecoderConfig) : Except String Decoder :=
  if getKindV config.result ≠ .kPtr then
    .error "result must be a pointer"
  else
    match config.result with
    | .vPtrNil _ => .error "result must be addressable (a pointer)"
    | r =>
        .ok { config :=
                { decodeHook := config.decodeHook
                  errorUnused := config.errorUnused
                  errorUnset := config.errorUnset
                  zeroFields := config.zeroFields
                  weaklyTypedInput := config.weaklyTypedInput
                  squash := config.squash
                  hasMetadata := config.hasMetadata
                  ignoreUntaggedFields := config.ignoreUntaggedFields
                  tagName := if config.tagName = "" then "mapstructure" else config.tagName
                  matchName := config.matchName.getD strEqualFold },
              result := r }

/-- `Decoder.Decode` (part_005:415-417): decode into the dereferenced
result.  Returns the updated result pointer next to the error. -/
def Decoder.Decode (d : Decoder) (fuel : Nat) (input : Value) : Value × Option (List DecodingError) :=
  match d.result with
  | .vPtr ety v =>
      let r := decode d.config fuel [] input ety v
      (.vPtr ety r.val, r.err)
  | r => (r, some [⟨[], .generic, "", "model: non-pointer result"⟩])

/-- The package-level `Decode` (part_005:305-317): build the default
configuration around `output`, construct the decoder (a construction
failure is returned as-is, before any decoding), and run it.  Returns the
possibly-updated output value next to the error. -/
def Decode (fuel : Nat) (input output : Value) : Value × Option GoError :=
  match NewDecoder { result := output } with
  | .error msg => (output, some (.plain msg))
  | .ok d =>
      let (out, err) := d.Decode fuel input
      (out, err.map .multi)

/-! ### Go slice semantics of `Namespace.Duplicate` (error.go:75-190)

The pure layer above gives namespaces value semantics.  The actual
`Namespace` stores its segments in a Go slice, and
`Duplicate` (error.go:186-190) re-slices it (`ns_.items = ns.items[:]`)
instead of copying, so the duplicate shares the original's backing
array.  The model below makes backing arrays explicit: a slice is an
array identifier plus a length, `append` writes in place when spare
capacity exists and allocates a fresh doubled array otherwise (Go's
`growslice` policy for small element counts). -/

/-- A Go slice header over a store of backing arrays: array id and
length.  (`Duplicate` never re-slices with an offset, so none is
needed; the capacity is the backing array's length.) -/
structure GoSlice where
  arr : Nat
  len : Nat
deriving DecidableEq, Repr

/-- The heap of backing arrays for namespace item slices. -/
structure Store where
  arrays : List (List Seg)
deriving Repr

def Store.read (st : Store) (sl : GoSlice) : List Seg :=
  (st.arrays.getD sl.arr []).take sl.len

/-- `Namespace.Duplicate` (error.go:186-190): `ns_.items = ns.items[:]`
copies the header only — same backing array, same length. -/
def nsDuplicate (sl : GoSlice) : GoSlice := sl

/-- Go's append growth for small slices: capacity doubles (1, 2, 4, ...). -/
def growCap (c : Nat) : Nat := max 1 (2 * c)

/-- `append(ns.items, seg)`: write in place when length < capacity
(mutating every slice sharing the array), otherwise allocate a fresh
array of doubled capacity and copy. -/
def nsAppendSeg (st : Store) (sl : GoSlice) (seg : Seg) : Store × GoSlice :=
  let a := st.arrays.getD sl.arr []
  if sl.len < a.length then
    (⟨st.arrays.set sl.arr (a.set sl.len seg)⟩, ⟨sl.arr, sl.len + 1⟩)
  else
    let newA := a.take sl.len ++ [seg] ++
      List.replicate (growCap a.length - sl.len - 1) (Seg.fld "" "" false)
    (⟨st.arrays ++ [newA]⟩, ⟨st.arrays.length, sl.len + 1⟩)

/-- The namespace flow of `decodeStructFromMap`'s field loop
(part_005:1466-1469) under store semantics: for each field, duplicate
the namespace, append the field segment, decode the field, and keep the
raised errors (each holding its namespace slice as
`DecodingError.SetNamespace` stores `*namespace.Duplicate()`).  The
errors render only at the end, exactly as `DecodingError.Error()` reads
the slice lazily. -/
def decodeSFields (decS : Store → GoSlice → Value → DType → Store × List (GoSlice × String))
    (entries : VEntries) :
    DFields → Store → GoSlice → Store × List (GoSlice × String)
  | .nil, st, _ => (st, [])
  | .cons name _ _ ty tl, st, sl =>
      let (st1, sl1) := nsAppendSeg st (nsDuplicate sl) (.fld name name false)
      let v := (entries.lookup (.vString name)).getD .vNil
      let (st2, errs1) := decS st1 sl1 v ty
      let (st3, errs2) := decodeSFields decS entries tl st2 sl
      (st3, errs1 ++ errs2)

/-- The decode recursion restricted to struct and bool destinations,
under store semantics for the namespace (the other branches do not touch
the namespace differently).  A bool destination raises the
unconvertible-type error with the current namespace
(`SetNamespace(ns)` duplicates the slice header); a struct destination
runs the field loop. -/
def decodeS : Nat → Store → GoSlice → Value → DType → Store × List (GoSlice × String)
  | 0, st, _, _, _ => (st, [])
  | fuel + 1, st, sl, input, ty =>
      match ty with
      | .dBool =>
          match input with
          | .vBool _ => (st, [])
          | _ =>
              (st, [(nsDuplicate sl,
                "expected type 'bool', got unconvertible type '" ++
                  tyStr (typeOf input) ++ "', value: '" ++ formatV input ++ "'")])
      | .dStruct dfs =>
          match input with
          | .vMap _ _ es => decodeSFields (decodeS fuel) es dfs st (nsDuplicate sl)
          | _ => (st, [(nsDuplicate sl, "expected a map")])
      | _ => (st, [])

/-- Render the collected errors against the final store, as
`DecodingErrors.Error()` does after the decode returns. -/
def renderErrs (st : Store) (errs : List (GoSlice × String)) : List String :=
  errs.map (fun e => "@'" ++ nsFmt (st.read e.1) ++ "': " ++ e.2)

/-- Destination type for the aliasing scenario: four nesting levels, the
innermost struct holding two bool fields `x` and `y`. -/
def aliasTy : DFields :=
  .cons "a" "" false (.dStruct
    (.cons "b" "" false (.dStruct
      (.cons "c" "" false (.dStruct
        (.cons "x" "" false .dBool
          (.cons "y" "" false .dBool .nil)))
        .nil))
      .nil))
    .nil

/-- Source for the aliasing scenario: both leaves carry strings, so both
leaf fields fail to decode into bool. -/
def aliasInput : Value :=
  .vMap .dString .dInterface (.cons (.vString "a")
    (.vMap .dString .dInterface (.cons (.vString "b")
      (.vMap .dString .dInterface (.cons (.vString "c")
        (.vMap .dString .dInterface
          (.cons (.vString "x") (.vString "bad-x")
            (.cons (.vString "y") (.vString "bad-y") .nil)))
        .nil))
      .nil))
    .nil)

/-- Run the scenario from an empty namespace (`NewNamespace()`: nil
items slice). -/
def aliasRun : Store × List (GoSlice × String) :=
  decodeS 9 ⟨[[]]⟩ ⟨0, 0⟩ aliasInput (.dStruct aliasTy)

/-! ## Theorems -/

/-- C2.  The claim asserts that duplicating a namespace and appending to
the duplicate can never make one field's error message contain a path
segment appended by a sibling field.  Because `Namespace.Duplicate`
(error.go:186-190) re-slices (`ns.items[:]`) instead of copying, sibling
appends share a backing array once it has spare capacity: at nesting
depth 3 the shared array has capacity 4 and length 3, so the sibling
fields `x` and `y` both write their segment into slot 3.  Decoding
`{a: {b: {c: {x: "bad-x", y: "bad-y"}}}}` therefore renders the error
raised at field `x` (the one whose message carries the value `bad-x`)
with namespace `a.b.c.y` — field `y`'s segment.  The spec's copy-on-append
invariant is the evident intent, so this is a defect of the code. -/
theorem namespaceDuplicate_sibling_crosstalk :
    renderErrs aliasRun.1 aliasRun.2 =
      ["@'a.b.c.y': expected type 'bool', got unconvertible type 'string', value: 'bad-x'",
       "@'a.b.c.y': expected type 'bool', got unconvertible type 'string', value: 'bad-y'"] := by
  decide

/-- C3.  Weak typing at the boundary: the string `"0"` decodes into a
bool destination as `false`; the empty string decodes into a signed
integer destination as `0`; the string `"-1"` into an unsigned
destination is an error (and leaves the destination untouched). -/
theorem weakTyping_boundary :
    (decode { weaklyTypedInput := true } 2 [] (.vString "0") .dBool (.vBool true)).val
        = .vBool false ∧
    (decode { weaklyTypedInput := true } 2 [] (.vString "0") .dBool (.vBool true)).err = none ∧
    (decode { weaklyTypedInput := true } 2 [] (.vString "") (.dInt 64) (.vInt 7)).val
        = .vInt 0 ∧
    (decode { weaklyTypedInput := true } 2 [] (.vString "") (.dInt 64) (.vInt 7)).err = none ∧
    (decode { weaklyTypedInput := true } 2 [] (.vString "-1") (.dUint 64) (.vUint 3)).err.isSome
        = true ∧
    (decode { weaklyTypedInput := true } 2 [] (.vString "-1") (.dUint 64) (.vUint 3)).val
        = .vUint 3 := by
  refine ⟨rfl, rfl, rfl, rfl, rfl, rfl⟩

/-- C4.  A nil source (including a typed nil pointer) is terminal: under
`ZeroFields` the destination becomes its zero value (and the namespace is
recorded as a populated key when metadata is collected), otherwise the
destination is untouched; no error is returned.  The equation holds for
every configuration (in particular for every configured hook — the hook
is never consulted) and for every fuel bound (no recursion happens). -/
theorem decode_nil_terminal (cfg : Config) (fuel : Nat) (ns : List Seg)
    (ty : DType) (out : Value) :
    (decode cfg (fuel + 1) ns .vNil ty out =
      if cfg.zeroFields then
        { val := zeroValue ty,
          meta := if cfg.hasMetadata ∧ ns ≠ [] then { keys := [nsFmt ns] } else {},
          err := none }
      else { val := out, meta := {}, err := none }) ∧
    (∀ ety, decode cfg (fuel + 1) ns (.vPtrNil ety) ty out
        = decode cfg (fuel + 1) ns .vNil ty out) := by
  constructor
  · by_cases hz : cfg.zeroFields <;> simp [decode, hz]
  · intro ety
    rfl

def GoError.isAggregate : GoError → Bool
  | .multi _ => true
  | _ => false

/-- C5.  `DecodingErrors.Append` splices an incoming aggregate member by
member (the member count is the sum), wraps any non-aggregate error as
exactly one member, and — consequently — an aggregate built by any
sequence of appends is flat, its member count being the sum of the
flattened member counts of everything appended. -/
theorem DecodingErrors_Append_flattens :
    (∀ (e : DecodingErrors) (es' : List DecodingError),
        e.Append (some (.multi es')) = ⟨e.errors ++ es'⟩) ∧
    (∀ (e : DecodingErrors) (g : GoError), g.isAggregate = false →
        e.Append (some g) = ⟨e.errors ++ [AsDecodingError g]⟩) ∧
    (∀ (e : DecodingErrors) (errs : List (Option GoError)),
        (errs.foldl DecodingErrors.Append e).errors.length =
          e.errors.length + (errs.map memberCountOpt).sum) := by
  refine ⟨fun e es' => rfl, fun e g hg => ?_, fun e errs => ?_⟩
  · cases g with
    | single e' => rfl
    | multi es => simp [GoError.isAggregate] at hg
    | plain m => rfl
  · induction errs generalizing e with
    | nil => simp
    | cons err rest ih =>
        rw [List.foldl_cons, ih]
        cases err with
        | none => simp [DecodingErrors.Append, memberCountOpt]
        | some g =>
            cases g <;>
              simp [DecodingErrors.Append, memberCountOpt, memberCount] <;> omega

/-- C5 witness: appending a two-member aggregate to a one-member
aggregate yields three members; appending a non-aggregate error adds
exactly one. -/
theorem DecodingErrors_Append_flattens_witness :
    (DecodingErrors.Append ⟨[⟨[], .generic, "", "a"⟩]⟩
        (some (.multi [⟨[], .generic, "", "b"⟩, ⟨[], .generic, "", "c"⟩])) =
      ⟨[⟨[], .generic, "", "a"⟩, ⟨[], .generic, "", "b"⟩, ⟨[], .generic, "", "c"⟩]⟩) ∧
    (DecodingErrors.Append ⟨[⟨[], .generic, "", "a"⟩]⟩ (some (.plain "p")) =
      ⟨[⟨[], .generic, "", "a"⟩, AsDecodingError (.plain "p")]⟩) :=
  ⟨DecodingErrors_Append_flattens.1 ⟨[⟨[], .generic, "", "a"⟩]⟩ _,
   DecodingErrors_Append_flattens.2.1 ⟨[⟨[], .generic, "", "a"⟩]⟩ (.plain "p") rfl⟩

theorem sortStrings_perm_eq {l1 l2 : List String} (h : l1.Perm l2) :
    l1.insertionSort (· ≤ ·) = l2.insertionSort (· ≤ ·) := by
  haveI : IsAntisymm String (· ≤ ·) := ⟨fun a b h1 h2 => le_antisymm h1 h2⟩
  haveI : IsTotal String (· ≤ ·) := ⟨fun a b => le_total a b⟩
  haveI : IsTrans String (· ≤ ·) := ⟨fun a b c h1 h2 => le_trans h1 h2⟩
  exact List.eq_of_perm_of_sorted
    ((List.perm_insertionSort _ _).trans (h.trans (List.perm_insertionSort _ _).symm))
    (List.sorted_insertionSort _ _) (List.sorted_insertionSort _ _)

/-- C6.  The rendered message of an error aggregate is independent of the
order in which the members were appended: the `* ...` bullets are sorted
before joining, so aggregates holding the same members in any permutation
render identically. -/
theorem DefaultDecodingErrorsFormatter_perm_invariant
    (es1 es2 : List DecodingError) (h : es1.Perm es2) :
    DefaultDecodingErrorsFormatter ⟨es1⟩ = DefaultDecodingErrorsFormatter ⟨es2⟩ := by
  show toString es1.length ++ " error(s) decoding:\n\n" ++ _ = _
  rw [h.length_eq, sortStrings_perm_eq (h.map (fun er => "* " ++ er.errString))]
  rfl

/-- C6 witness: a concrete two-member aggregate renders identically with
its members swapped. -/
theorem DefaultDecodingErrorsFormatter_perm_invariant_witness :
    DefaultDecodingErrorsFormatter ⟨[⟨[], .generic, "", "m1"⟩, ⟨[], .generic, "", "m2"⟩]⟩ =
      DefaultDecodingErrorsFormatter ⟨[⟨[], .generic, "", "m2"⟩, ⟨[], .generic, "", "m1"⟩]⟩ :=
  DefaultDecodingErrorsFormatter_perm_invariant _ _
    (List.Perm.swap (⟨[], .generic, "", "m2"⟩ : DecodingError) ⟨[], .generic, "", "m1"⟩ [])

/-- C7.  A destination that is not a pointer, or is a nil pointer (its
dereference is not addressable), makes `Decode` fail during decoder
construction: the destination is returned unchanged, the error is a
plain configuration error — a different constructor from the per-field
`DecodingErrors` aggregate — and the result is the same for every fuel
bound and every input, i.e. no recursion into the source happens. -/
theorem Decode_config_error :
    (∀ (fuel : Nat) (input output : Value), getKindV output ≠ .kPtr →
        Decode fuel input output = (output, some (.plain "result must be a pointer"))) ∧
    (∀ (fuel : Nat) (input : Value) (ety : DType),
        Decode fuel input (.vPtrNil ety) =
          (.vPtrNil ety, some (.plain "result must be addressable (a pointer)"))) ∧
    (∀ (m : String) (es : List DecodingError), GoError.plain m ≠ GoError.multi es) := by
  refine ⟨fun fuel input output h => ?_, fun fuel input ety => ?_, fun m es => by simp⟩
  · cases output <;> simp_all [Decode, NewDecoder, getKindV]
  · rfl

/-- C7 witness: a non-pointer destination fails with the plain
configuration error and is not mutated. -/
theorem Decode_config_error_witness :
    Decode 5 (.vString "x") (.vInt 2) = (.vInt 2, some (.plain "result must be a pointer")) :=
  Decode_config_error.1 5 (.vString "x") (.vInt 2) (by simp [getKindV])

theorem composeStep_foldl_error (t : Kind) (e : String) (hs : List Hook) :
    hs.foldl (composeStep t) (.error e) = .error e := by
  induction hs with
  | nil => rfl
  | cons h rest ih => simpa [composeStep] using ih

/-- C8.  A sequentially composed hook runs its members in order: the
first hook receives the original source kind and value; each later
hook receives the previous hook's output with the source kind recomputed
from that output; an erroring member stops the composition and its error
is propagated; the empty composition is the identity. -/
theorem ComposeDecodeHookFunc_sequential :
    (∀ (h : Hook) (hs : List Hook) (f t : Kind) (d : Value),
        ComposeDecodeHookFunc (h :: hs) f t d =
          match h f t d with
          | .error e => .error e
          | .ok d2 => ComposeDecodeHookFunc hs (getKindV d2) t d2) ∧
    (∀ (h : Hook) (hs : List Hook) (f t : Kind) (d : Value) (e : String),
        h f t d = .error e → ComposeDecodeHookFunc (h :: hs) f t d = .error e) ∧
    (∀ (f t : Kind) (d : Value), ComposeDecodeHookFunc [] f t d = .ok d) := by
  have key : ∀ (h : Hook) (hs : List Hook) (f t : Kind) (d : Value),
      ComposeDecodeHookFunc (h :: hs) f t d =
        match h f t d with
        | .error e => .error e
        | .ok d2 => ComposeDecodeHookFunc hs (getKindV d2) t d2 := by
    intro h hs f t d
    show (List.foldl (composeStep t) (composeStep t (.ok (f, d)) h) hs).map _ = _
    cases hr : h f t d with
    | error e =>
        simp [composeStep, hr, composeStep_foldl_error, Except.map]
    | ok d2 =>
        simp [composeStep, hr]
        rfl
  refine ⟨key, fun h hs f t d e he => ?_, fun f t d => rfl⟩
  rw [key, he]

/-- C8 witness: a two-member composition where the first member errors
propagates that error without running the second member. -/
theorem ComposeDecodeHookFunc_sequential_witness :
    ComposeDecodeHookFunc
        [fun _ _ _ => .error "boom", fun _ _ _ => .ok (.vInt 1)] .kString .kInt (.vString "v") =
      .error "boom" :=
  ComposeDecodeHookFunc_sequential.2.1 _ _ .kString .kInt (.vString "v") "boom" rfl

theorem VList_get?_take : ∀ (n : Nat) (l : VList) (j : Nat), j < n →
    (VList.take n l).get? j = l.get? j
  | 0, _, j, h => by omega
  | _ + 1, .nil, j, _ => by cases j <;> rfl
  | _ + 1, .cons x t, 0, _ => rfl
  | n + 1, .cons x t, j + 1, h => VList_get?_take n t j (by omega)

theorem VList_get?_of_ge : ∀ (l : VList) (j : Nat), l.length ≤ j → l.get? j = none
  | .nil, j, _ => by cases j <;> rfl
  | .cons x t, j + 1, h => VList_get?_of_ge t j (by simp [VList.length] at h; omega)
  | .cons x t, 0, h => by simp [VList.length] at h

theorem decodeSliceLoop_length (dec : DecFn) (ns : List Seg) (ety : DType) :
    ∀ (xs old : VList) (i : Nat),
      (decodeSliceLoop dec ns ety i xs old).1.length = xs.length
  | .nil, _, _ => rfl
  | .cons x xs, old, i => by
      simp only [decodeSliceLoop, VList.length]
      rw [decodeSliceLoop_length dec ns ety xs _ (i + 1)]

theorem decodeSliceLoop_get? (dec : DecFn) (ns : List Seg) (ety : DType) :
    ∀ (xs old : VList) (i j : Nat),
      (decodeSliceLoop dec ns ety i xs old).1.get? j =
        (xs.get? j).map (fun x =>
          (dec (ns ++ [.idx (Int.ofNat (i + j))]) x ety
            ((old.get? j).getD (zeroValue ety))).val)
  | .nil, _, _, j => by cases j <;> rfl
  | .cons x xs, old, i, 0 => by
      simp only [decodeSliceLoop, VList.get?, Option.map]
      cases old <;> rfl
  | .cons x xs, old, i, j + 1 => by
      simp only [decodeSliceLoop, VList.get?]
      rw [decodeSliceLoop_get? dec ns ety xs
        (match old with | .cons _ t => t | .nil => VList.nil) (i + 1) j]
      have harith : i + 1 + j = i + (j + 1) := by omega
      rw [harith]
      cases old <;> rfl

/-- Elements of a slice value. -/
def sliceElems : Value → VList
  | .vSlice _ l => l
  | _ => .nil

/-- C10.  Decoding a non-nil source sequence into a non-nil slice
destination with `ZeroFields` off reuses the destination slice: the
result has exactly the source's length, and index `i` of the result is
obtained by decoding source element `i` independently into the old
element at `i` when one exists (truncation drops any excess) and into a
zero-valued element otherwise (extension).  The element characterization
holds whether or not per-index errors occurred. -/
theorem decodeSlice_reuses_destination (dec : DecFn) (cfg : Config)
    (hz : cfg.zeroFields = false)
    (ns : List Seg) (sety ety : DType) (xs old : VList) :
    (decodeSlice dec cfg ns (.vSlice sety xs) ety (.vSlice ety old)).val
        = .vSlice ety
            (sliceElems (decodeSlice dec cfg ns (.vSlice sety xs) ety (.vSlice ety old)).val) ∧
    (sliceElems (decodeSlice dec cfg ns (.vSlice sety xs) ety (.vSlice ety old)).val).length
        = xs.length ∧
    ∀ j, (sliceElems (decodeSlice dec cfg ns (.vSlice sety xs) ety (.vSlice ety old)).val).get? j
        = (xs.get? j).map (fun x =>
            (dec (ns ++ [.idx (Int.ofNat j)]) x ety
              ((old.get? j).getD (zeroValue ety))).val) := by
  have hval : (decodeSlice dec cfg ns (.vSlice sety xs) ety (.vSlice ety old)).val
      = .vSlice ety (decodeSliceLoop dec ns ety 0 xs
          (if old.length > xs.length then VList.take xs.length old else old)).1 := by
    simp only [decodeSlice, decodeSliceGo, indirect, valueIsNil, hz]
    simp
  refine ⟨by rw [hval]; rfl, ?_, ?_⟩
  · rw [hval]
    exact decodeSliceLoop_length dec ns ety xs _ 0
  · intro j
    rw [hval]
    show (decodeSliceLoop dec ns ety 0 xs _).1.get? j = _
    rw [decodeSliceLoop_get? dec ns ety xs _ 0 j]
    by_cases hj : j < xs.length
    · have hget : ((if old.length > xs.length then VList.take xs.length old else old).get? j)
          = old.get? j := by
        split
        · exact VList_get?_take xs.length old j hj
        · rfl
      rw [hget]
      simp
    · rw [VList_get?_of_ge xs j (by omega)]
      rfl

/-- C10 witness: against source `[1,2]` the destination `[10,20,30]` is
truncated to length 2, and each index is decoded independently. -/
theorem decodeSlice_reuses_destination_witness :
    (decodeSlice (decode {} 1) {} [] (.vSlice .dInterface (.cons (.vInt 1) (.cons (.vInt 2) .nil)))
        (.dInt 64) (.vSlice (.dInt 64)
          (.cons (.vInt 10) (.cons (.vInt 20) (.cons (.vInt 30) .nil))))).val
      = .vSlice (.dInt 64)
          (sliceElems (decodeSlice (decode {} 1) {} []
            (.vSlice .dInterface (.cons (.vInt 1) (.cons (.vInt 2) .nil)))
            (.dInt 64) (.vSlice (.dInt 64)
              (.cons (.vInt 10) (.cons (.vInt 20) (.cons (.vInt 30) .nil))))).val) ∧
    (sliceElems (decodeSlice (decode {} 1) {} []
        (.vSlice .dInterface (.cons (.vInt 1) (.cons (.vInt 2) .nil)))
        (.dInt 64) (.vSlice (.dInt 64)
          (.cons (.vInt 10) (.cons (.vInt 20) (.cons (.vInt 30) .nil))))).val).length = 2 :=
  ⟨(decodeSlice_reuses_destination (decode {} 1) {} rfl [] .dInterface (.dInt 64)
      (.cons (.vInt 1) (.cons (.vInt 2) .nil))
      (.cons (.vInt 10) (.cons (.vInt 20) (.cons (.vInt 30) .nil)))).1,
   (decodeSlice_reuses_destination (decode {} 1) {} rfl [] .dInterface (.dInt 64)
      (.cons (.vInt 1) (.cons (.vInt 2) .nil))
      (.cons (.vInt 10) (.cons (.vInt 20) (.cons (.vInt 30) .nil)))).2.1⟩

mutual
theorem dtypeBeqRefl : ∀ t : DType, DType.beq t t = true
  | .dBool => rfl
  | .dInt b => by simp [DType.beq]
  | .dUint b => by simp [DType.beq]
  | .dString => rfl
  | .dInterface => rfl
  | .dStruct f => by simp [DType.beq, dfieldsBeqRefl f]
  | .dMap k v => by simp [DType.beq, dtypeBeqRefl k, dtypeBeqRefl v]
  | .dSlice e => by simp [DType.beq, dtypeBeqRefl e]
  | .dPtr e => by simp [DType.beq, dtypeBeqRefl e]

theorem dfieldsBeqRefl : ∀ f : DFields, DFields.beq f f = true
  | .nil => rfl
  | .cons n t a ty tl => by
      simp [DFields.beq, dtypeBeqRefl ty, dfieldsBeqRefl tl]
end

mutual
theorem valueBeqRefl : ∀ v : Value, Value.beq v v = true
  | .vNil => rfl
  | .vBool b => by simp [Value.beq]
  | .vInt n => by simp [Value.beq]
  | .vUint n => by simp [Value.beq]
  | .vString s => by simp [Value.beq]
  | .vPtrNil t => by simp [Value.beq, dtypeBeqRefl t]
  | .vPtr t v => by simp [Value.beq, dtypeBeqRefl t, valueBeqRefl v]
  | .vMapNil k v => by simp [Value.beq, dtypeBeqRefl k, dtypeBeqRefl v]
  | .vMap k v e => by
      simp [Value.beq, dtypeBeqRefl k, dtypeBeqRefl v, ventriesBeqRefl e]
  | .vSliceNil t => by simp [Value.beq, dtypeBeqRefl t]
  | .vSlice t l => by simp [Value.beq, dtypeBeqRefl t, vlistBeqRefl l]
  | .vStruct f l => by simp [Value.beq, dfieldsBeqRefl f, vlistBeqRefl l]

theorem vlistBeqRefl : ∀ l : VList, VList.beq l l = true
  | .nil => rfl
  | .cons h t => by simp [VList.beq, valueBeqRefl h, vlistBeqRefl t]

theorem ventriesBeqRefl : ∀ e : VEntries, VEntries.beq e e = true
  | .nil => rfl
  | .cons k v t => by
      simp [VEntries.beq, valueBeqRefl k, valueBeqRefl v, ventriesBeqRefl t]
end

/-- Whether a map holds an entry for the given key. -/
def VEntries.hasKey (es : VEntries) (k : Value) : Bool :=
  (es.lookup k).isSome

theorem VEntries.lookup_setIndex_self : ∀ (es : VEntries) (k v : Value),
    (es.setIndex k v).lookup k = some v
  | .nil, k, v => by simp [VEntries.setIndex, VEntries.lookup, valueBeqRefl k]
  | .cons k2 v2 t, k, v => by
      by_cases h : Value.beq k2 k
      · simp [VEntries.setIndex, VEntries.lookup, h]
      · simp only [VEntries.setIndex, h, if_neg, Bool.not_eq_true, ite_false]
        simp only [VEntries.lookup, h, ite_false]
        exact VEntries.lookup_setIndex_self t k v

theorem VEntries.hasKey_setIndex_mono : ∀ (es : VEntries) (k2 : Value),
    es.hasKey k2 = true → ∀ (k v : Value), (es.setIndex k v).hasKey k2 = true
  | .nil, k2, h, k, v => by simp [VEntries.hasKey, VEntries.lookup] at h
  | .cons k3 v3 t, k2, h, k, v => by
      by_cases h3 : Value.beq k3 k
      · simp only [VEntries.setIndex, h3, ite_true]
        by_cases h32 : Value.beq k3 k2
        · simp [VEntries.hasKey, VEntries.lookup, h32]
        · simp only [VEntries.hasKey, VEntries.lookup, h32, ite_false] at h ⊢
          exact h
      · simp only [VEntries.setIndex, h3, ite_false]
        by_cases h32 : Value.beq k3 k2
        · simp [VEntries.hasKey, VEntries.lookup, h32]
        · simp only [VEntries.hasKey, VEntries.lookup, h32, ite_false] at h ⊢
          exact VEntries.hasKey_setIndex_mono t k2 h k v

theorem decodeMapFromMapLoop_hasKey_mono (dec : DecFn) (ns : List Seg) (kty vty : DType) :
    ∀ (tl : VEntries) (vm : VEntries) (k : Value), vm.hasKey k = true →
      ((decodeMapFromMapLoop dec ns kty vty tl vm).1).hasKey k = true
  | .nil, vm, k, h => h
  | .cons k0 v0 tl, vm, k, h => by
      simp only [decodeMapFromMapLoop]
      cases hrk : (dec (ns ++ [.key (formatV k0)]) k0 kty (zeroValue kty)).err with
      | some es =>
          simp only [hrk]
          exact decodeMapFromMapLoop_hasKey_mono dec ns kty vty tl vm k h
      | none =>
          simp only [hrk]
          cases hrv : (dec (ns ++ [.key (formatV k0)]) v0 vty (zeroValue vty)).err with
          | some es =>
              simp only [hrv]
              exact decodeMapFromMapLoop_hasKey_mono dec ns kty vty tl vm k h
          | none =>
              simp only [hrv]
              exact decodeMapFromMapLoop_hasKey_mono dec ns kty vty tl _ k
                (VEntries.hasKey_setIndex_mono vm k h _ _)

theorem decodeMapFromMapLoop_member (dec : DecFn) (ns : List Seg) (kty vty : DType) :
    ∀ (entries : VEntries) (vm : VEntries) (k v : Value),
      (k, v) ∈ entries.toList →
      (dec (ns ++ [.key (formatV k)]) k kty (zeroValue kty)).err = none →
      (dec (ns ++ [.key (formatV k)]) v vty (zeroValue vty)).err = none →
      ((decodeMapFromMapLoop dec ns kty vty entries vm).1).hasKey
        ((dec (ns ++ [.key (formatV k)]) k kty (zeroValue kty)).val) = true
  | .nil, vm, k, v, hmem, _, _ => by simp [VEntries.toList] at hmem
  | .cons k0 v0 tl, vm, k, v, hmem, hk, hv => by
      simp only [VEntries.toList, List.mem_cons, Prod.mk.injEq] at hmem
      cases hmem with
      | inl heq =>
          obtain ⟨hk0, hv0⟩ := heq
          subst hk0
          subst hv0
          simp only [decodeMapFromMapLoop, hk, hv]
          refine decodeMapFromMapLoop_hasKey_mono dec ns kty vty tl _ _ ?_
          simp [VEntries.hasKey, VEntries.lookup_setIndex_self]
      | inr hmem =>
          simp only [decodeMapFromMapLoop]
          cases hrk : (dec (ns ++ [.key (formatV k0)]) k0 kty (zeroValue kty)).err with
          | some es =>
              simp only [hrk]
              exact decodeMapFromMapLoop_member dec ns kty vty tl vm k v hmem hk hv
          | none =>
              simp only [hrk]
              cases hrv : (dec (ns ++ [.key (formatV k0)]) v0 vty (zeroValue vty)).err with
              | some es =>
                  simp only [hrv]
                  exact decodeMapFromMapLoop_member dec ns kty vty tl vm k v hmem hk hv
              | none =>
                  simp only [hrv]
                  exact decodeMapFromMapLoop_member dec ns kty vty tl _ k v hmem hk hv

/-- Whether a map value holds an entry for the given key. -/
def mapHasKey : Value → Value → Bool
  | .vMap _ _ es, k => es.hasKey k
  | _, _ => false

/-- C9.  Decoding a non-empty source map into a map destination is not
atomic on error: every entry whose key and value both decode successfully
is present in the destination map even when other entries fail, and the
built-up (possibly partially populated) map is what gets assigned to the
destination, whether or not the error aggregate is returned. -/
theorem decodeMapFromMap_not_atomic (dec : DecFn) (ns : List Seg) (kty vty : DType)
    (entries : VEntries) (val : Value) (valMap : VEntries) :
    (∀ k v, (k, v) ∈ entries.toList →
      (dec (ns ++ [.key (formatV k)]) k kty (zeroValue kty)).err = none →
      (dec (ns ++ [.key (formatV k)]) v vty (zeroValue vty)).err = none →
      mapHasKey (decodeMapFromMap dec ns false entries kty vty val valMap).val
        ((dec (ns ++ [.key (formatV k)]) k kty (zeroValue kty)).val) = true) ∧
    (entries.length ≠ 0 →
      (decodeMapFromMap dec ns false entries kty vty val valMap).val
        = .vMap kty vty (decodeMapFromMapLoop dec ns kty vty entries valMap).1) := by
  have hne : ∀ k v, (k, v) ∈ entries.toList → entries.length ≠ 0 := by
    intro k v hmem
    cases entries with
    | nil => simp [VEntries.toList] at hmem
    | cons a b t => simp [VEntries.length]
  have hval : entries.length ≠ 0 →
      (decodeMapFromMap dec ns false entries kty vty val valMap).val
        = .vMap kty vty (decodeMapFromMapLoop dec ns kty vty entries valMap).1 := by
    intro h
    simp only [decodeMapFromMap, h, ite_false, if_neg h]
  refine ⟨fun k v hmem hk hv => ?_, hval⟩
  rw [hval (hne k v hmem)]
  show ((decodeMapFromMapLoop dec ns kty vty entries valMap).1).hasKey _ = true
  exact decodeMapFromMapLoop_member dec ns kty vty entries valMap k v hmem hk hv

/-- C9 witness: with one well-typed and one ill-typed entry, the decode
call errors, yet the well-typed entry is present in the destination
map. -/
theorem decodeMapFromMap_not_atomic_witness :
    mapHasKey (decodeMapFromMap (decode {} 1) [] false
        (.cons (.vString "a") (.vInt 1) (.cons (.vString "b") (.vString "x") .nil))
        .dString (.dInt 64) (.vMapNil .dString (.dInt 64)) .nil).val
      (.vString "a") = true ∧
    (decodeMapFromMap (decode {} 1) [] false
        (.cons (.vString "a") (.vInt 1) (.cons (.vString "b") (.vString "x") .nil))
        .dString (.dInt 64) (.vMapNil .dString (.dInt 64)) .nil).err.isSome = true :=
  ⟨(decodeMapFromMap_not_atomic (decode {} 1) [] .dString (.dInt 64)
      (.cons (.vString "a") (.vInt 1) (.cons (.vString "b") (.vString "x") .nil))
      (.vMapNil .dString (.dInt 64)) .nil).1
      (.vString "a") (.vInt 1) (List.Mem.head _) rfl rfl,
   rfl⟩

def isScalarTy : DType → Bool
  | .dBool => true
  | .dInt _ => true
  | .dUint _ => true
  | .dString => true
  | _ => false

/-- A flat struct type: every field untagged, not embedded, of scalar
type. -/
def DFields.flatScalar : DFields → Bool
  | .nil => true
  | .cons _ tag anon ty tl =>
      (tag == "") && (!anon) && isScalarTy ty && tl.flatScalar

/-- The fields of a flat struct as the collection walk produces them. -/
def enumFields : DFields → Nat → List FieldC
  | .nil, _ => []
  | .cons name tag _ ty tl, i =>
      { name := name, tag := tag, ty := ty, path := [i] } :: enumFields tl (i + 1)

def errLenD : Option (List DecodingError) → Nat
  | none => 0
  | some es => es.length

/-- The number of fields whose matched source value fails to decode
(fields with no matching source key do not fail). -/
def countFieldFails (dec : DecFn) (cfg : Config) (ns : List Seg)
    (entries : VEntries) (allKeys : List Value) : List FieldC → Nat
  | [] => 0
  | f :: fs =>
      (let tagValue := (goSplit f.tag ',').headD ""
       let fieldName := if tagValue ≠ "" then tagValue else f.name
       match structLookup cfg entries allKeys fieldName with
       | none => 0
       | some kv =>
           if (dec (ns ++ [.fld f.name fieldName false]) kv.2 f.ty .vNil).err.isSome
           then 1 else 0) +
      countFieldFails dec cfg ns entries allKeys fs

/-- The returned error of a recursive decode call does not depend on the
destination value. -/
def decErrStable (dec : DecFn) (ty : DType) : Prop :=
  ∀ ns' data v v', (dec ns' data ty v).err = (dec ns' data ty v').err

/-- The returned error of a recursive decode call, when present, has
exactly one member. -/
def decErrSingle (dec : DecFn) (ty : DType) : Prop :=
  ∀ ns' data v es, (dec ns' data ty v).err = some es → es.length = 1

theorem decodeBool_snd_indep (cfg : Config) (ns : List Seg) (data : Value) (ty : DType)
    (v v' : Value) : (decodeBool cfg ns data ty v).2 = (decodeBool cfg ns data ty v').2 := by
  cases h : indirect data <;>
    simp only [decodeBool, h] <;>
    (try rfl) <;>
    split_ifs <;>
    (try rfl) <;>
    (cases hp : goParseBool _ <;> simp only [hp] <;> split_ifs <;> rfl)

theorem decodeInt_snd_indep (cfg : Config) (ns : List Seg) (data : Value) (bits : Nat)
    (v v' : Value) : (decodeInt cfg ns data bits v).2 = (decodeInt cfg ns data bits v').2 := by
  cases h : indirect data <;>
    simp only [decodeInt, h] <;>
    (try rfl) <;>
    split_ifs <;>
    (try rfl) <;>
    (cases hp : goParseInt _ bits <;> simp only [hp] <;> rfl)

theorem decodeUint_snd_indep (cfg : Config) (ns : List Seg) (data : Value) (bits : Nat)
    (v v' : Value) : (decodeUint cfg ns data bits v).2 = (decodeUint cfg ns data bits v').2 := by
  cases h : indirect data <;>
    simp only [decodeUint, h] <;>
    (try rfl) <;>
    split_ifs <;>
    (try rfl) <;>
    (cases hp : goParseUint _ bits <;> simp only [hp] <;> rfl)

theorem decodeString_snd_indep (cfg : Config) (ns : List Seg) (data : Value)
    (v v' : Value) : (decodeString cfg ns data v).2 = (decodeString cfg ns data v').2 := by
  cases h : indirect data <;>
    simp only [decodeString, h] <;>
    (try rfl) <;>
    split_ifs <;>
    rfl

/-- Closed form of the error a scalar decode returns: nil input is
error-free; otherwise the scalar decoder's (destination-independent)
error, wrapped as a one-member aggregate. -/
def scalarErr (cfg : Config) (ns : List Seg) (input : Value) (ty : DType) :
    Option (List DecodingError) :=
  match input with
  | .vNil => none
  | .vPtrNil _ => none
  | input =>
      match ty with
      | .dBool => ((decodeBool cfg ns input ty .vNil).2).map (fun e => [e])
      | .dInt bits => ((decodeInt cfg ns input bits .vNil).2).map (fun e => [e])
      | .dUint bits => ((decodeUint cfg ns input bits .vNil).2).map (fun e => [e])
      | .dString => ((decodeString cfg ns input .vNil).2).map (fun e => [e])
      | _ => none

theorem decode_dBool_err (cfg : Config) (hhook : cfg.decodeHook = none)
    (m : Nat) (ns : List Seg) (data v : Value) :
    (decode cfg (m + 1) ns data .dBool v).err = scalarErr cfg ns data .dBool := by
  cases data <;> by_cases hz : cfg.zeroFields <;>
    simp [decode, hhook, scalarErr, hz] <;>
    (rw [decodeBool_snd_indep cfg ns _ _ v .vNil];
     cases hE : (decodeBool cfg ns _ .dBool Value.vNil).2 <;>
       simp [hE, AsDecodingErrors, AsDecodingError])

theorem decode_dInt_err (cfg : Config) (hhook : cfg.decodeHook = none)
    (m : Nat) (ns : List Seg) (data v : Value) (bits : Nat) :
    (decode cfg (m + 1) ns data (.dInt bits) v).err = scalarErr cfg ns data (.dInt bits) := by
  cases data <;> by_cases hz : cfg.zeroFields <;>
    simp [decode, hhook, scalarErr, hz] <;>
    (rw [decodeInt_snd_indep cfg ns _ bits v .vNil];
     cases hE : (decodeInt cfg ns _ bits Value.vNil).2 <;>
       simp [hE, AsDecodingErrors, AsDecodingError])

theorem decode_dUint_err (cfg : Config) (hhook : cfg.decodeHook = none)
    (m : Nat) (ns : List Seg) (data v : Value) (bits : Nat) :
    (decode cfg (m + 1) ns data (.dUint bits) v).err = scalarErr cfg ns data (.dUint bits) := by
  cases data <;> by_cases hz : cfg.zeroFields <;>
    simp [decode, hhook, scalarErr, hz] <;>
    (rw [decodeUint_snd_indep cfg ns _ bits v .vNil];
     cases hE : (decodeUint cfg ns _ bits Value.vNil).2 <;>
       simp [hE, AsDecodingErrors, AsDecodingError])

theorem decode_dString_err (cfg : Config) (hhook : cfg.decodeHook = none)
    (m : Nat) (ns : List Seg) (data v : Value) :
    (decode cfg (m + 1) ns data .dString v).err = scalarErr cfg ns data .dString := by
  cases data <;> by_cases hz : cfg.zeroFields <;>
    simp [decode, hhook, scalarErr, hz] <;>
    (rw [decodeString_snd_indep cfg ns _ v .vNil];
     cases hE : (decodeString cfg ns _ Value.vNil).2 <;>
       simp [hE, AsDecodingErrors, AsDecodingError])

theorem decode_scalar_err (cfg : Config) (hhook : cfg.decodeHook = none)
    (ty : DType) (hty : isScalarTy ty = true) (m : Nat) (ns : List Seg) (data v : Value) :
    (decode cfg (m + 1) ns data ty v).err = scalarErr cfg ns data ty := by
  cases ty <;> simp [isScalarTy] at hty
  · exact decode_dBool_err cfg hhook m ns data v
  · exact decode_dInt_err cfg hhook m ns data v _
  · exact decode_dUint_err cfg hhook m ns data v _
  · exact decode_dString_err cfg hhook m ns data v

theorem optionMapSingleton_len : ∀ (X : Option DecodingError) (es : List DecodingError),
    X.map (fun e => [e]) = some es → es.length = 1 := by
  intro X es h
  cases X with
  | none => cases h
  | some e =>
      simp only [Option.map, Option.some.injEq] at h
      subst h
      rfl

theorem scalarErr_single (cfg : Config) (ns : List Seg) (input : Value) (ty : DType) :
    ∀ es, scalarErr cfg ns input ty = some es → es.length = 1 := by
  intro es h
  unfold scalarErr at h
  cases input <;> (try exact Option.noConfusion h) <;>
    cases ty <;> (try exact Option.noConfusion h) <;>
    exact optionMapSingleton_len _ es h

/-- A recursive decode into a scalar destination under a hook-free
configuration returns an error that does not depend on the destination
value and, when present, has exactly one member. -/
theorem decode_scalar_spec (cfg : Config) (hhook : cfg.decodeHook = none)
    (ty : DType) (hty : isScalarTy ty = true) (m : Nat) :
    decErrStable (decode cfg (m + 1)) ty ∧ decErrSingle (decode cfg (m + 1)) ty := by
  constructor
  · intro ns' data v v'
    rw [decode_scalar_err cfg hhook ty hty m ns' data v,
        decode_scalar_err cfg hhook ty hty m ns' data v']
  · intro ns' data v es h
    rw [decode_scalar_err cfg hhook ty hty m ns' data v] at h
    exact scalarErr_single cfg ns' data ty es h

theorem effFieldTy_scalar (ty : DType) (fv : Value) (h : isScalarTy ty = true) :
    effFieldTy ty fv = ty := by
  cases ty <;> simp [isScalarTy] at h <;> (cases fv <;> rfl)

theorem collectOneStruct_flat (cfg : Config) (val : Value) (ns : List Seg) :
    ∀ (dfs : DFields) (i : Nat), dfs.flatScalar = true →
      collectOneStruct cfg val ns [] dfs i = ([], enumFields dfs i, none, [])
  | .nil, i, _ => rfl
  | .cons name tag anon ty tl, i, h => by
      simp only [DFields.flatScalar, Bool.and_eq_true, beq_iff_eq,
        Bool.not_eq_true'] at h
      obtain ⟨⟨⟨htag, hanon⟩, hty⟩, htl⟩ := h
      subst htag
      subst hanon
      simp only [collectOneStruct, enumFields]
      rw [collectOneStruct_flat cfg val ns tl (i + 1) htl]
      simp [scanFlags, goSplit, goSplitAux, effFieldTy_scalar _ _ hty]

theorem collectStructFields_empty (cfg : Config) (val : Value) (ns : List Seg) :
    ∀ fuel, collectStructFields cfg val ns fuel [] = ([], none, []) := by
  intro fuel
  cases fuel <;> rfl

theorem collectStructFields_flat (cfg : Config) (val : Value) (ns : List Seg)
    (fuel : Nat) (dfs : DFields) (h : dfs.flatScalar = true) :
    collectStructFields cfg val ns (fuel + 1) [(dfs, [])] = (enumFields dfs 0, none, []) := by
  simp only [collectStructFields]
  rw [collectOneStruct_flat cfg val ns dfs 0 h]
  simp [collectStructFields_empty, Option.orElse]

theorem structFieldLoop_count (dec : DecFn) (cfg : Config) (ns : List Seg)
    (entries : VEntries) (allKeys : List Value) (fields : List FieldC) :
    ∀ (val : Value) (unused : List Value) (unset : List String)
      (errs : List DecodingError) (m : Meta),
      (∀ f ∈ fields, decErrStable dec f.ty ∧ decErrSingle dec f.ty) →
      ((structFieldLoop dec cfg ns entries allKeys fields val unused unset errs m).2.2.2.1).length
        = errs.length + countFieldFails dec cfg ns entries allKeys fields := by
  induction fields with
  | nil => intro val unused unset errs m _; simp [structFieldLoop, countFieldFails]
  | cons f fs ih =>
      intro val unused unset errs m hdec
      have hf := hdec f (List.mem_cons_self f fs)
      have hfs : ∀ g ∈ fs, decErrStable dec g.ty ∧ decErrSingle dec g.ty :=
        fun g hg => hdec g (List.mem_cons_of_mem f hg)
      simp only [structFieldLoop, countFieldFails]
      cases hlk : structLookup cfg entries allKeys
          (if (goSplit f.tag ',').headD "" ≠ "" then (goSplit f.tag ',').headD "" else f.name) with
      | none =>
          simp only [hlk]
          rw [ih val unused (insertUnique unset
            (if (goSplit f.tag ',').headD "" ≠ "" then (goSplit f.tag ',').headD "" else f.name))
            errs m hfs]
          omega
      | some kv =>
          obtain ⟨rk, rv⟩ := kv
          simp only [hlk]
          cases hre : (dec (ns ++ [.fld f.name
              (if (goSplit f.tag ',').headD "" ≠ "" then (goSplit f.tag ',').headD "" else f.name)
              false]) rv f.ty ((fieldAt val f.path).getD .vNil)).err with
          | none =>
              have hcount : (dec (ns ++ [.fld f.name
                  (if (goSplit f.tag ',').headD "" ≠ "" then (goSplit f.tag ',').headD ""
                    else f.name) false]) rv f.ty .vNil).err.isSome = false := by
                rw [hf.1 _ rv .vNil ((fieldAt val f.path).getD .vNil), hre]
                rfl
              simp only [hre, Option.map, DecodingErrors.Append, hcount]
              rw [ih _ _ _ _ _ hfs]
              simp
          | some es =>
              have hlen1 : es.length = 1 := hf.2 _ rv _ es hre
              have hcount : (dec (ns ++ [.fld f.name
                  (if (goSplit f.tag ',').headD "" ≠ "" then (goSplit f.tag ',').headD ""
                    else f.name) false]) rv f.ty .vNil).err.isSome = true := by
                rw [hf.1 _ rv .vNil ((fieldAt val f.path).getD .vNil), hre]
                rfl
              simp only [hre, Option.map, GoError.setUseFldTag, DecodingErrors.Append, hcount]
              rw [ih _ _ _ _ _ hfs]
              simp [hlen1]
              omega

theorem decodeStructFromMap_count (dec : DecFn) (cfg : Config) (fuel : Nat)
    (ns : List Seg) (entries : VEntries) (dfs : DFields) (val : Value)
    (hu : cfg.errorUnused = false) (hs : cfg.errorUnset = false)
    (hflat : dfs.flatScalar = true)
    (hdec : ∀ f ∈ enumFields dfs 0, decErrStable dec f.ty ∧ decErrSingle dec f.ty) :
    ((decodeStructFromMap dec cfg fuel ns .dString entries dfs val).err = none ∧
      countFieldFails dec cfg ns entries entries.keyList (enumFields dfs 0) = 0) ∨
    (∃ es, (decodeStructFromMap dec cfg fuel ns .dString entries dfs val).err
          = some (.multi es) ∧
        es.length = countFieldFails dec cfg ns entries entries.keyList (enumFields dfs 0) ∧
        0 < countFieldFails dec cfg ns entries entries.keyList (enumFields dfs 0)) := by
  rcases hx : structFieldLoop dec cfg ns entries entries.keyList (enumFields dfs 0)
      val entries.keyList [] [] {} with ⟨v1, u1, s1, e1, m1⟩
  have hlen := structFieldLoop_count dec cfg ns entries entries.keyList (enumFields dfs 0)
    val entries.keyList [] [] {} hdec
  rw [hx] at hlen
  simp only [List.length_nil, Nat.zero_add] at hlen
  simp only [decodeStructFromMap, getKindTy,
    collectStructFields_flat cfg val ns fuel dfs hflat, hx, hu, hs]
  by_cases he : e1.length > 0
  · right
    refine ⟨e1, ?_, by omega, by omega⟩
    simp [he]
  · left
    constructor
    · simp [he]
    · omega

theorem enumFields_scalar : ∀ (ds : DFields) (i : Nat), ds.flatScalar = true →
    ∀ f ∈ enumFields ds i, isScalarTy f.ty = true
  | .nil, i, _, f, hf => by simp [enumFields] at hf
  | .cons name tag anon ty tl, i, hh, f, hf => by
      simp only [DFields.flatScalar, Bool.and_eq_true] at hh
      simp only [enumFields, List.mem_cons] at hf
      cases hf with
      | inl hfe => subst hfe; exact hh.1.2
      | inr hfe => exact enumFields_scalar tl (i + 1) hh.2 f hfe

/-- C1.  Decoding a source mapping into a flat scalar-field record under
a hook-free configuration with the unused/unset policies off returns an
aggregate whose flattened member count is exactly the number of fields
whose matched source value fails to decode: each per-field failure is
collected (one member per failing field) and no field's failure aborts
its siblings; the call succeeds exactly when no field fails. -/
theorem decode_struct_collects_every_field_error (cfg : Config)
    (hhook : cfg.decodeHook = none) (hu : cfg.errorUnused = false)
    (hs : cfg.errorUnset = false) (dfs : DFields) (hflat : dfs.flatScalar = true)
    (entries : VEntries) (vty : DType) (outVal : Value) (ns : List Seg) (n : Nat) :
    errLenD (decode cfg (n + 2) ns (.vMap .dString vty entries) (.dStruct dfs) outVal).err
        = countFieldFails (decode cfg (n + 1)) cfg ns entries entries.keyList
            (enumFields dfs 0) ∧
    ((decode cfg (n + 2) ns (.vMap .dString vty entries) (.dStruct dfs) outVal).err = none ↔
        countFieldFails (decode cfg (n + 1)) cfg ns entries entries.keyList
          (enumFields dfs 0) = 0) := by
  have hdec : ∀ f ∈ enumFields dfs 0,
      decErrStable (decode cfg (n + 1)) f.ty ∧ decErrSingle (decode cfg (n + 1)) f.ty := by
    intro f hf
    exact decode_scalar_spec cfg hhook f.ty (enumFields_scalar dfs 0 hflat f hf) n
  have hmain := decodeStructFromMap_count (decode cfg (n + 1)) cfg (n + 1) ns entries dfs
    outVal hu hs hflat hdec
  have hred : (decode cfg (n + 2) ns (.vMap .dString vty entries) (.dStruct dfs) outVal).err
      = ((decodeStructFromMap (decode cfg (n + 1)) cfg (n + 1) ns .dString entries dfs
          outVal).err).map AsDecodingErrors := by
    show (decode cfg (n + 1 + 1) ns (.vMap .dString vty entries) (.dStruct dfs) outVal).err = _
    simp only [decode, hhook, decodeStruct, indirect, typeOf, DType.beq]
    rfl
  rcases hmain with ⟨hnone, hzero⟩ | ⟨es, hsome, hlen, hpos⟩
  · rw [hred, hnone]
    simp [errLenD, hzero]
  · rw [hred, hsome]
    constructor
    · simpa [errLenD, AsDecodingErrors] using hlen
    · simp [AsDecodingErrors]
      omega

/-- A three-field flat record for the C1 witness. -/
def c1Fields : DFields :=
  .cons "Name" "" false .dString
    (.cons "Age" "" false (.dInt 64)
      (.cons "Flag" "" false .dBool .nil))

/-- A source mapping in which all three fields are ill-typed. -/
def c1Input : VEntries :=
  .cons (.vString "name") (.vInt 123)
    (.cons (.vString "age") (.vString "bad")
      (.cons (.vString "flag") (.vString "zzz") .nil))

/-- C1 witness: three independently invalid fields produce an aggregate
with exactly three members. -/
theorem decode_struct_collects_every_field_error_witness :
    errLenD (decode {} 2 [] (.vMap .dString .dInterface c1Input)
        (.dStruct c1Fields) (zeroValue (.dStruct c1Fields))).err = 3 :=
  ((decode_struct_collects_every_field_error {} rfl rfl rfl c1Fields rfl c1Input
      .dInterface (zeroValue (.dStruct c1Fields)) [] 0).1).trans (by decide)

end mapstructure
